import Mathlib

/-!
Verification of the ChaosChain ACE session-key SDK against its specification.

The TypeScript sources are shallowly embedded as executable Lean definitions:

* `packages/session-key-sdk/src/session.ts` — canonical JSON, hashing and
  key-derivation helpers, and the `SessionKey` ledger operations
  (`signForChallenge`, `commitPayment`, `releasePayment`);
* `packages/session-key-sdk/src/x402-interceptor.ts` — the client fetch
  interceptor (`extractChallenge`, `x402Fetch`);
* the demo compute origin — the payment-ledger replay/conflict handler.

Modelling conventions, stated once here and referenced by doc comments:

* RFC 3339 timestamp strings are represented by their epoch-millisecond
  value (an `Int`); `new Date(s).getTime()` comparisons become `Int`
  comparisons.  JavaScript numbers holding micro-USDC amounts are `Int`.
* URLs appear in the code only through `new URL(u)` followed by
  `pathname + search`, so a URL is represented by its parsed
  `pathname`/`search` pair.
* `node:crypto` SHA-256 is modelled as an injective tagging function;
  every theorem below depends only on the digest being a deterministic
  function of its input, never on collision behaviour.
* Stateful methods of `SessionKey` become pure functions from the old
  `SessionState` to the new one, returning in addition the thrown error
  (as `Except`) and whether `persist()` ran.
-/

/-! ## Ordering primitives

`Ordering`-valued comparisons used to model JavaScript string comparison.
-/

/-- Three-way comparison on `Nat`, the building block of the string
comparisons below. -/
def natCmp (a b : Nat) : Ordering :=
  if a < b then .lt else if b < a then .gt else .eq

theorem natCmp_lt_iff (a b : Nat) : natCmp a b = .lt ↔ a < b := by
  unfold natCmp
  split_ifs with h1 h2 <;> simp_all <;> omega

theorem natCmp_gt_iff (a b : Nat) : natCmp a b = .gt ↔ b < a := by
  unfold natCmp
  split_ifs with h1 h2 <;> simp_all <;> omega

theorem natCmp_eq_iff (a b : Nat) : natCmp a b = .eq ↔ a = b := by
  unfold natCmp
  split_ifs with h1 h2 <;> simp_all <;> omega

theorem natCmp_swap (a b : Nat) : natCmp a b = (natCmp b a).swap := by
  unfold natCmp
  split_ifs with h1 h2 h3 h4 <;> simp_all [Ordering.swap] <;> omega

/-- Lexicographic comparison of `Nat` sequences; models JavaScript's
code-unit-wise string relational comparison when applied to code-unit
lists, and one collation level of `localeCompare` when applied to
collation-weight lists. -/
def lexCmp : List Nat → List Nat → Ordering
  | [], [] => .eq
  | [], _ :: _ => .lt
  | _ :: _, [] => .gt
  | a :: as, b :: bs =>
    match natCmp a b with
    | .eq => lexCmp as bs
    | o => o

theorem lexCmp_eq_iff : ∀ as bs : List Nat, lexCmp as bs = .eq ↔ as = bs := by
  intro as
  induction as with
  | nil => intro bs; cases bs <;> simp [lexCmp]
  | cons a as ih =>
    intro bs
    cases bs with
    | nil => simp [lexCmp]
    | cons b bs =>
      simp only [lexCmp]
      rcases h : natCmp a b with _ | _ | _
      · simp_all
        intro hab _
        rw [hab, natCmp_lt_iff] at h
        omega
      · rw [natCmp_eq_iff] at h
        subst h
        simp [ih]
      · simp_all
        intro hab _
        rw [hab, natCmp_gt_iff] at h
        omega

theorem lexCmp_swap : ∀ as bs : List Nat, lexCmp as bs = (lexCmp bs as).swap := by
  intro as
  induction as with
  | nil => intro bs; cases bs <;> simp [lexCmp, Ordering.swap]
  | cons a as ih =>
    intro bs
    cases bs with
    | nil => simp [lexCmp, Ordering.swap]
    | cons b bs =>
      simp only [lexCmp]
      rw [natCmp_swap a b]
      rcases natCmp b a with _ | _ | _ <;> simp [Ordering.swap, ih bs]

theorem lexCmp_le_trans : ∀ as bs cs : List Nat,
    lexCmp as bs ≠ .gt → lexCmp bs cs ≠ .gt → lexCmp as cs ≠ .gt := by
  intro as
  induction as with
  | nil =>
    intro bs cs _ _
    cases cs <;> simp [lexCmp]
  | cons a as ih =>
    intro bs cs h1 h2
    cases bs with
    | nil => simp [lexCmp] at h1
    | cons b bs =>
      cases cs with
      | nil => simp [lexCmp] at h2
      | cons c cs =>
        simp only [lexCmp] at h1 h2 ⊢
        have hab : a < b ∨ (a = b ∧ lexCmp as bs ≠ .gt) := by
          rcases h : natCmp a b with _ | _ | _
          · exact Or.inl ((natCmp_lt_iff a b).mp h)
          · simp only [h] at h1
            exact Or.inr ⟨(natCmp_eq_iff a b).mp h, h1⟩
          · simp [h] at h1
        have hbc : b < c ∨ (b = c ∧ lexCmp bs cs ≠ .gt) := by
          rcases h : natCmp b c with _ | _ | _
          · exact Or.inl ((natCmp_lt_iff b c).mp h)
          · simp only [h] at h2
            exact Or.inr ⟨(natCmp_eq_iff b c).mp h, h2⟩
          · simp [h] at h2
        rcases hab with hab | ⟨hab, htail1⟩
        · have hac : a < c := by
            rcases hbc with hbc | ⟨hbc, _⟩ <;> omega
          simp [(natCmp_lt_iff a c).mpr hac]
        · rcases hbc with hbc | ⟨hbc, htail2⟩
          · have hac : a < c := by omega
            simp [(natCmp_lt_iff a c).mpr hac]
          · subst hab; subst hbc
            have ha : natCmp a a = .eq := (natCmp_eq_iff a a).mpr rfl
            simp only [ha]
            exact ih bs cs htail1 htail2

theorem lexCmp_lt_trans (as bs cs : List Nat)
    (h1 : lexCmp as bs = .lt) (h2 : lexCmp bs cs = .lt) : lexCmp as cs = .lt := by
  have hle : lexCmp as cs ≠ .gt :=
    lexCmp_le_trans as bs cs (by simp [h1]) (by simp [h2])
  rcases h : lexCmp as cs with _ | _ | _
  · rfl
  · rw [lexCmp_eq_iff] at h
    subst h
    have hswap := lexCmp_swap bs as
    rw [h1, h2] at hswap
    simp [Ordering.swap] at hswap
  · exact absurd h hle

/-! ## String comparison models

`session.ts` sorts object keys with `a.localeCompare(b)`.  JavaScript's
`String.prototype.localeCompare` with no arguments is a locale-sensitive
collation (ICU).  `jsLocaleCompare` models its behaviour under Node's
default root locale on the ASCII subset: a case-insensitive primary
comparison (so digits sort before letters and `a` sorts before `B`),
with ties broken lowercase-before-uppercase at the tertiary level.
This already differs from UTF-16 code-unit order, which
`codeUnitCompare` captures for comparison with the specification text.
-/

/-- ASCII lower-casing of a character, used to build the primary
collation weight. -/
def asciiLowerNat (c : Char) : Nat :=
  if 'A' ≤ c ∧ c ≤ 'Z' then c.toNat + 32 else c.toNat

/-- Primary collation weights (case-insensitive) of a string. -/
def primaryKey (s : String) : List Nat := s.data.map asciiLowerNat

/-- Tertiary collation weights: lowercase (and everything that is not an
ASCII uppercase letter) weighs 0, uppercase weighs 1, so at equal
letters lowercase sorts first, as the root collation does. -/
def tertiaryKey (s : String) : List Nat :=
  s.data.map (fun c => if 'A' ≤ c ∧ c ≤ 'Z' then 1 else 0)

/-- UTF-16 code units of a string (all claims below use only code points
below `0x10000`, where code units and code points coincide). -/
def codeUnits (s : String) : List Nat := s.data.map Char.toNat

/-- Model of JavaScript `a.localeCompare(b)` under the default root
locale, restricted to ASCII: primary level first, then tertiary. -/
def jsLocaleCompare (a b : String) : Ordering :=
  match lexCmp (primaryKey a) (primaryKey b) with
  | .eq => lexCmp (tertiaryKey a) (tertiaryKey b)
  | o => o

/-- Comparison by UTF-16 code-unit order.  This follows the
specification's words ("byte-order of UTF-16 code units"), for
comparison against the source's `localeCompare`-based sort. -/
def codeUnitCompare (a b : String) : Ordering :=
  lexCmp (codeUnits a) (codeUnits b)

theorem jsLocaleCompare_swap (a b : String) :
    jsLocaleCompare a b = (jsLocaleCompare b a).swap := by
  unfold jsLocaleCompare
  rw [lexCmp_swap (primaryKey a) (primaryKey b),
    lexCmp_swap (tertiaryKey a) (tertiaryKey b)]
  rcases lexCmp (primaryKey b) (primaryKey a) with _ | _ | _ <;>
    simp [Ordering.swap]

theorem jsLocaleCompare_le_trans (a b c : String)
    (h1 : jsLocaleCompare a b ≠ .gt) (h2 : jsLocaleCompare b c ≠ .gt) :
    jsLocaleCompare a c ≠ .gt := by
  unfold jsLocaleCompare at h1 h2 ⊢
  rcases hp1 : lexCmp (primaryKey a) (primaryKey b) with _ | _ | _ <;>
    simp only [hp1] at h1 <;>
    rcases hp2 : lexCmp (primaryKey b) (primaryKey c) with _ | _ | _ <;>
    simp only [hp2] at h2
  · have hlt := lexCmp_lt_trans _ _ _ hp1 hp2
    simp [hlt]
  · have he := (lexCmp_eq_iff _ _).mp hp2
    rw [he] at hp1
    simp [hp1]
  · exact absurd rfl h2
  · have he := (lexCmp_eq_iff _ _).mp hp1
    rw [he]
    simp [hp2]
  · have he1 := (lexCmp_eq_iff _ _).mp hp1
    have he2 := (lexCmp_eq_iff _ _).mp hp2
    rw [he1, he2]
    have hcc : lexCmp (primaryKey c) (primaryKey c) = .eq :=
      (lexCmp_eq_iff _ _).mpr rfl
    simp only [hcc]
    exact lexCmp_le_trans _ _ _ h1 h2
  · exact absurd rfl h2
  · exact absurd rfl h1
  · exact absurd rfl h1
  · exact absurd rfl h1

theorem jsLocaleCompare_eq_of_both_le (a b : String)
    (h1 : jsLocaleCompare a b ≠ .gt) (h2 : jsLocaleCompare b a ≠ .gt) :
    jsLocaleCompare a b = .eq := by
  have hswap := jsLocaleCompare_swap a b
  rcases h : jsLocaleCompare a b with _ | _ | _
  · rw [h] at hswap
    rcases hba : jsLocaleCompare b a with _ | _ | _ <;>
      rw [hba] at hswap <;> simp [Ordering.swap] at hswap h2
    exact absurd hba h2
  · rfl
  · exact absurd h h1

/-! ## JSON values and `canonicalJson`

Embedding of the JSON-representable values handled by
`canonicalJson`/`sortDeep` in `session.ts`.  An object is its list of
entries in insertion order, which is exactly what `Object.entries`
exposes and `JSON.stringify` serializes.
-/

/-- JSON-representable values.  Numbers are restricted to integers: every
number the SDK serializes (amounts, versions) is an integer, and the
claims do not involve float formatting. -/
inductive Json where
  | null : Json
  | bool (b : Bool) : Json
  | num (n : Int) : Json
  | str (s : String) : Json
  | arr (items : List Json) : Json
  | obj (entries : List (String × Json)) : Json

/-- One step of the entry sort: insert `p` into `l`, placing it before
the first entry whose key compares greater.  Together with the fold in
`sortEntries` this is a stable sort by key, modelling
`Object.entries(value).sort(([a], [b]) => a.localeCompare(b))`
(JavaScript's `Array.prototype.sort` is stable). -/
def insertEntry (cmp : String → String → Ordering) (p : String × Json) :
    List (String × Json) → List (String × Json)
  | [] => [p]
  | q :: rest =>
    if cmp q.1 p.1 = .gt then p :: q :: rest else q :: insertEntry cmp p rest

/-- Stable sort of object entries by key under the comparator `cmp`. -/
def sortEntries (cmp : String → String → Ordering)
    (l : List (String × Json)) : List (String × Json) :=
  List.foldl (fun acc p => insertEntry cmp p acc) [] l

theorem mem_insertEntry (cmp : String → String → Ordering) (p q : String × Json) :
    ∀ l : List (String × Json), q ∈ insertEntry cmp p l ↔ q = p ∨ q ∈ l := by
  intro l
  induction l with
  | nil => simp [insertEntry]
  | cons r rest ih =>
    simp only [insertEntry]
    split_ifs with h
    · simp [List.mem_cons]
    · simp only [List.mem_cons, ih]
      tauto

theorem mem_sortEntries_aux (cmp : String → String → Ordering) (q : String × Json) :
    ∀ l acc : List (String × Json),
      q ∈ List.foldl (fun acc p => insertEntry cmp p acc) acc l →
      q ∈ acc ∨ q ∈ l := by
  intro l
  induction l with
  | nil => simp
  | cons p rest ih =>
    intro acc h
    simp only [List.foldl_cons] at h
    rcases ih (insertEntry cmp p acc) h with h' | h'
    · rcases (mem_insertEntry cmp p q acc).mp h' with h'' | h''
      · right; simp [h'']
      · left; exact h''
    · right; simp [h']

theorem mem_of_mem_sortEntries (cmp : String → String → Ordering)
    (q : String × Json) (l : List (String × Json))
    (h : q ∈ sortEntries cmp l) : q ∈ l := by
  rcases mem_sortEntries_aux cmp q l [] h with h' | h'
  · simp at h'
  · exact h'

/-- Model of `sortDeep` from `session.ts`, parameterized by the key
comparator: arrays are mapped recursively, objects are rebuilt with
their entries sorted by key and their values recursed into,
everything else is returned unchanged. -/
def sortDeepWith (cmp : String → String → Ordering) : Json → Json
  | .null => .null
  | .bool b => .bool b
  | .num n => .num n
  | .str s => .str s
  | .arr items => .arr (items.attach.map (fun x => sortDeepWith cmp x.1))
  | .obj entries => .obj ((sortEntries cmp entries).attach.map
      (fun p => match p with
        | ⟨(k, v), _⟩ => (k, sortDeepWith cmp v)))
termination_by j => sizeOf j
decreasing_by
  · have := List.sizeOf_lt_of_mem x.2
    simp only [Json.arr.sizeOf_spec]
    omega
  · rename_i hmem
    have h1 := List.sizeOf_lt_of_mem (mem_of_mem_sortEntries cmp _ entries hmem)
    simp only [Json.obj.sizeOf_spec, Prod.mk.sizeOf_spec] at h1 ⊢
    omega

/-- `sortDeep` as in the source: keys ordered by `localeCompare`. -/
def sortDeep (v : Json) : Json := sortDeepWith jsLocaleCompare v

/-- Hexadecimal digit characters, for `\u00XX` escapes. -/
def hexDigitChar (n : Nat) : Char :=
  if n < 10 then Char.ofNat (48 + n) else Char.ofNat (87 + n)

/-- `JSON.stringify` escaping of a single character: quote, backslash,
the five short escapes, `\u00XX` for remaining control characters. -/
def escapeJsonChar (c : Char) : String :=
  if c = '"' then "\\\""
  else if c = '\\' then "\\\\"
  else if c = '\x08' then "\\b"
  else if c = '\x09' then "\\t"
  else if c = '\x0a' then "\\n"
  else if c = '\x0c' then "\\f"
  else if c = '\x0d' then "\\r"
  else if c.toNat < 32 then
    "\\u00" ++ String.mk [hexDigitChar (c.toNat / 16), hexDigitChar (c.toNat % 16)]
  else String.singleton c

/-- `JSON.stringify` rendering of a string literal. -/
def renderString (s : String) : String :=
  "\"" ++ String.join (s.data.map escapeJsonChar) ++ "\""

/-- `JSON.stringify` with no space argument: compact separators, no
insignificant whitespace, object entries in insertion order. -/
def renderJson : Json → String
  | .null => "null"
  | .bool true => "true"
  | .bool false => "false"
  | .num n => toString n
  | .str s => renderString s
  | .arr items =>
    "[" ++ String.intercalate "," (items.attach.map (fun x => renderJson x.1)) ++ "]"
  | .obj entries =>
    "\x7b" ++ String.intercalate ","
      (entries.attach.map (fun p => match p with
        | ⟨(k, v), _⟩ => renderString k ++ ":" ++ renderJson v)) ++ "\x7d"
termination_by j => sizeOf j
decreasing_by
  · have := List.sizeOf_lt_of_mem x.2
    simp only [Json.arr.sizeOf_spec]
    omega
  · rename_i hmem
    have h1 := List.sizeOf_lt_of_mem hmem
    simp only [Json.obj.sizeOf_spec, Prod.mk.sizeOf_spec] at h1 ⊢
    omega

/-- `canonicalJson` from `session.ts`:
`JSON.stringify(sortDeep(value))`. -/
def canonicalJson (v : Json) : String := renderJson (sortDeep v)

/-- Canonical serialization as the specification words it: identical to
`canonicalJson` except that keys are sorted by UTF-16 code-unit order
(a locale-independent comparison) instead of `localeCompare`.  Kept
separate so that the two can be compared. -/
def canonicalJsonSpecOrder (v : Json) : String :=
  renderJson (sortDeepWith codeUnitCompare v)

/-! ## Sorting lemmas

Properties of `sortEntries` needed to settle the canonical-JSON claims:
it permutes its input, its output is sorted under the comparator, and a
sorted list is determined by its multiset of entries when the comparator
separates their keys.
-/

/-- Key order induced on entries by a comparator. -/
def entryLe (cmp : String → String → Ordering) (p q : String × Json) : Prop :=
  cmp p.1 q.1 ≠ .gt

theorem insertEntry_perm (cmp : String → String → Ordering) (p : String × Json) :
    ∀ l : List (String × Json), (insertEntry cmp p l).Perm (p :: l) := by
  intro l
  induction l with
  | nil => simp [insertEntry]
  | cons q rest ih =>
    simp only [insertEntry]
    split_ifs with h
    · exact List.Perm.refl _
    · exact (ih.cons q).trans (List.Perm.swap p q rest)

theorem foldl_insertEntry_perm (cmp : String → String → Ordering) :
    ∀ l acc : List (String × Json),
      (List.foldl (fun acc p => insertEntry cmp p acc) acc l).Perm (acc ++ l) := by
  intro l
  induction l with
  | nil => intro acc; simp
  | cons p rest ih =>
    intro acc
    simp only [List.foldl_cons]
    exact (ih (insertEntry cmp p acc)).trans
      (((insertEntry_perm cmp p acc).append_right rest).trans
        (by simpa using (List.perm_middle).symm))

theorem sortEntries_perm (cmp : String → String → Ordering)
    (l : List (String × Json)) : (sortEntries cmp l).Perm l := by
  have h := foldl_insertEntry_perm cmp l []
  simpa [sortEntries] using h

theorem insertEntry_sorted (cmp : String → String → Ordering)
    (hswap : ∀ a b, cmp a b = (cmp b a).swap)
    (htrans : ∀ a b c, cmp a b ≠ .gt → cmp b c ≠ .gt → cmp a c ≠ .gt)
    (p : String × Json) :
    ∀ l : List (String × Json), l.Pairwise (entryLe cmp) →
      (insertEntry cmp p l).Pairwise (entryLe cmp) := by
  intro l
  induction l with
  | nil => intro _; simp [insertEntry, entryLe]
  | cons q rest ih =>
    intro hl
    rw [List.pairwise_cons] at hl
    obtain ⟨hq, hrest⟩ := hl
    simp only [insertEntry]
    split_ifs with h
    · have hpq : entryLe cmp p q := by
        unfold entryLe
        rw [hswap p.1 q.1, h]
        simp [Ordering.swap]
      rw [List.pairwise_cons]
      constructor
      · intro r hr
        rcases List.mem_cons.mp hr with rfl | hr'
        · exact hpq
        · exact htrans _ _ _ hpq (hq r hr')
      · rw [List.pairwise_cons]
        exact ⟨hq, hrest⟩
    · rw [List.pairwise_cons]
      constructor
      · intro r hr
        rcases (mem_insertEntry cmp p r rest).mp hr with rfl | hr'
        · exact h
        · exact hq r hr'
      · exact ih hrest

theorem sortEntries_sorted (cmp : String → String → Ordering)
    (hswap : ∀ a b, cmp a b = (cmp b a).swap)
    (htrans : ∀ a b c, cmp a b ≠ .gt → cmp b c ≠ .gt → cmp a c ≠ .gt)
    (l : List (String × Json)) :
    (sortEntries cmp l).Pairwise (entryLe cmp) := by
  unfold sortEntries
  have haux : ∀ l acc : List (String × Json), acc.Pairwise (entryLe cmp) →
      (List.foldl (fun acc p => insertEntry cmp p acc) acc l).Pairwise (entryLe cmp) := by
    intro l
    induction l with
    | nil => intro acc h; simpa using h
    | cons p rest ih =>
      intro acc h
      simp only [List.foldl_cons]
      exact ih _ (insertEntry_sorted cmp hswap htrans p acc h)
  exact haux l [] (by simp)

theorem cmp_eq_of_both_le (cmp : String → String → Ordering)
    (hswap : ∀ a b, cmp a b = (cmp b a).swap) (a b : String)
    (h1 : cmp a b ≠ .gt) (h2 : cmp b a ≠ .gt) : cmp a b = .eq := by
  rcases h : cmp a b with _ | _ | _
  · have := hswap b a
    rw [h] at this
    simp [Ordering.swap] at this
    exact absurd this h2
  · rfl
  · exact absurd h h1

theorem sorted_perm_unique (cmp : String → String → Ordering)
    (hswap : ∀ a b, cmp a b = (cmp b a).swap) :
    ∀ l₁ l₂ : List (String × Json), l₁.Perm l₂ →
      l₁.Pairwise (entryLe cmp) → l₂.Pairwise (entryLe cmp) →
      (∀ p ∈ l₁, ∀ q ∈ l₁, cmp p.1 q.1 = .eq → p = q) →
      l₁ = l₂ := by
  intro l₁
  induction l₁ with
  | nil =>
    intro l₂ hperm _ _ _
    exact List.Perm.nil_eq hperm
  | cons p t₁ ih =>
    intro l₂ hperm hs₁ hs₂ hstrict
    cases l₂ with
    | nil => exact absurd hperm.symm (by simp)
    | cons q t₂ =>
      rw [List.pairwise_cons] at hs₁ hs₂
      have hpq : p = q := by
        have hpmem : p ∈ q :: t₂ := hperm.mem_iff.mp (List.mem_cons_self p t₁)
        have hqmem : q ∈ p :: t₁ := hperm.symm.mem_iff.mp (List.mem_cons_self q t₂)
        rcases List.mem_cons.mp hpmem with h | hpt₂
        · exact h
        rcases List.mem_cons.mp hqmem with h | hqt₁
        · exact h.symm
        have h1 : cmp p.1 q.1 ≠ .gt := hs₁.1 q hqt₁
        have h2 : cmp q.1 p.1 ≠ .gt := hs₂.1 p hpt₂
        exact hstrict p (List.mem_cons_self p t₁) q
          (List.mem_cons_of_mem p hqt₁)
          (cmp_eq_of_both_le cmp hswap p.1 q.1 h1 h2)
      subst hpq
      have htail : t₁.Perm t₂ := hperm.cons_inv
      have heq : t₁ = t₂ := by
        apply ih t₂ htail hs₁.2 hs₂.2
        intro a ha b hb hab
        exact hstrict a (List.mem_cons_of_mem p ha) b (List.mem_cons_of_mem p hb) hab
      rw [heq]

theorem sortEntries_eq_of_perm (cmp : String → String → Ordering)
    (hswap : ∀ a b, cmp a b = (cmp b a).swap)
    (htrans : ∀ a b c, cmp a b ≠ .gt → cmp b c ≠ .gt → cmp a c ≠ .gt)
    (l₁ l₂ : List (String × Json)) (hperm : l₁.Perm l₂)
    (hstrict : ∀ p ∈ l₁, ∀ q ∈ l₁, cmp p.1 q.1 = .eq → p = q) :
    sortEntries cmp l₁ = sortEntries cmp l₂ := by
  apply sorted_perm_unique cmp hswap
  · exact (sortEntries_perm cmp l₁).trans (hperm.trans (sortEntries_perm cmp l₂).symm)
  · exact sortEntries_sorted cmp hswap htrans l₁
  · exact sortEntries_sorted cmp hswap htrans l₂
  · intro a ha b hb hab
    exact hstrict a (mem_of_mem_sortEntries cmp a l₁ ha)
      b (mem_of_mem_sortEntries cmp b l₁ hb) hab

theorem entry_eq_of_nodup_keys :
    ∀ l : List (String × Json), (l.map Prod.fst).Nodup →
      ∀ p ∈ l, ∀ q ∈ l, p.1 = q.1 → p = q := by
  intro l
  induction l with
  | nil => simp
  | cons r rest ih =>
    intro hnd p hp q hq hk
    rw [List.map_cons, List.nodup_cons] at hnd
    rcases List.mem_cons.mp hp with rfl | hp' <;>
      rcases List.mem_cons.mp hq with h | hq'
    · rw [h]
    · exact absurd (List.mem_map.mpr ⟨q, hq', hk.symm⟩) hnd.1
    · rw [← h] at hnd
      exact absurd (List.mem_map.mpr ⟨p, hp', hk⟩) hnd.1
    · exact ih hnd.2 p hp' q hq' hk

/-! ## Unfolding lemmas

The recursive definitions above use `List.attach` for termination; these
lemmas restate their equations with plain `List.map`. -/

theorem sortDeepWith_arr (cmp : String → String → Ordering) (items : List Json) :
    sortDeepWith cmp (.arr items) = .arr (items.map (sortDeepWith cmp)) := by
  rw [sortDeepWith]
  congr 1
  exact List.attach_map_val items (sortDeepWith cmp)

theorem sortDeepWith_obj (cmp : String → String → Ordering)
    (entries : List (String × Json)) :
    sortDeepWith cmp (.obj entries) =
      .obj ((sortEntries cmp entries).map (fun p => (p.1, sortDeepWith cmp p.2))) := by
  rw [sortDeepWith]
  congr 1
  have h1 : (sortEntries cmp entries).attach.map
      (fun p => match p with | ⟨(k, v), _⟩ => (k, sortDeepWith cmp v)) =
      (sortEntries cmp entries).attach.map
        (fun p => (p.1.1, sortDeepWith cmp p.1.2)) := by
    apply List.map_eq_map_iff.mpr
    rintro ⟨⟨k, v⟩, hmem⟩ _
    rfl
  rw [h1]
  exact List.attach_map_val (sortEntries cmp entries)
    (fun p => (p.1, sortDeepWith cmp p.2))

theorem renderJson_arr (items : List Json) :
    renderJson (.arr items) =
      "[" ++ String.intercalate "," (items.map renderJson) ++ "]" := by
  rw [renderJson]
  congr 2
  congr 1
  exact List.attach_map_val items renderJson

theorem renderJson_obj (entries : List (String × Json)) :
    renderJson (.obj entries) =
      "\x7b" ++ String.intercalate ","
        (entries.map (fun p => renderString p.1 ++ ":" ++ renderJson p.2)) ++ "\x7d" := by
  rw [renderJson]
  congr 2
  have h1 : entries.attach.map
      (fun p => match p with | ⟨(k, v), _⟩ => renderString k ++ ":" ++ renderJson v) =
      entries.attach.map (fun p => renderString p.1.1 ++ ":" ++ renderJson p.1.2) := by
    apply List.map_eq_map_iff.mpr
    rintro ⟨⟨k, v⟩, hmem⟩ _
    rfl
  rw [h1]
  congr 1
  exact List.attach_map_val entries (fun p => renderString p.1 ++ ":" ++ renderJson p.2)

/-! ## Recursive key-sortedness -/

/-- Adjacent-pairs check that a key list is weakly ascending under the
comparator. -/
def chainKeyLe (cmp : String → String → Ordering) : List String → Bool
  | [] => true
  | [_] => true
  | a :: b :: rest => (decide (cmp a b ≠ .gt)) && chainKeyLe cmp (b :: rest)

/-- Every object in the value (at any depth) has its keys sorted under
the comparator. -/
def keysSortedDeep (cmp : String → String → Ordering) : Json → Bool
  | .null => true
  | .bool _ => true
  | .num _ => true
  | .str _ => true
  | .arr items => items.attach.all (fun x => keysSortedDeep cmp x.1)
  | .obj entries =>
    chainKeyLe cmp (entries.map Prod.fst) &&
      entries.attach.all (fun p => match p with
        | ⟨(_, v), _⟩ => keysSortedDeep cmp v)
termination_by j => sizeOf j
decreasing_by
  · have := List.sizeOf_lt_of_mem x.2
    simp only [Json.arr.sizeOf_spec]
    omega
  · rename_i hmem
    have h1 := List.sizeOf_lt_of_mem hmem
    simp only [Json.obj.sizeOf_spec, Prod.mk.sizeOf_spec] at h1 ⊢
    omega

theorem all_attach_eq {α : Type} (l : List α) (f : α → Bool) :
    (l.attach.all fun x => f x.1) = l.all f := by
  cases h : l.all f
  · simp only [List.all_eq_false] at h
    obtain ⟨x, hx, hfx⟩ := h
    simp only [List.all_eq_false]
    exact ⟨⟨x, hx⟩, List.mem_attach l _, by simpa using hfx⟩
  · simp only [List.all_eq_true] at h ⊢
    intro x _
    exact h x.1 x.2

theorem keysSortedDeep_arr (cmp : String → String → Ordering) (items : List Json) :
    keysSortedDeep cmp (.arr items) = items.all (keysSortedDeep cmp) := by
  rw [keysSortedDeep]
  exact all_attach_eq items (keysSortedDeep cmp)

theorem all_congr_mem {α : Type} (l : List α) (f g : α → Bool)
    (h : ∀ a ∈ l, f a = g a) : l.all f = l.all g := by
  induction l with
  | nil => rfl
  | cons x xs ih =>
    simp only [List.all_cons, h x (by simp)]
    rw [ih (fun a ha => h a (by simp [ha]))]

theorem keysSortedDeep_obj (cmp : String → String → Ordering)
    (entries : List (String × Json)) :
    keysSortedDeep cmp (.obj entries) =
      (chainKeyLe cmp (entries.map Prod.fst) &&
        entries.all (fun p => keysSortedDeep cmp p.2)) := by
  rw [keysSortedDeep]
  congr 1
  have h2 : entries.attach.all (fun p => match p with
      | ⟨(_, v), _⟩ => keysSortedDeep cmp v) =
      entries.attach.all (fun p => keysSortedDeep cmp p.1.2) := by
    apply all_congr_mem
    rintro ⟨⟨k, v⟩, hmem⟩ _
    rfl
  rw [h2]
  exact all_attach_eq entries (fun p => keysSortedDeep cmp p.2)

theorem chainKeyLe_of_pairwise (cmp : String → String → Ordering) :
    ∀ l : List (String × Json), l.Pairwise (entryLe cmp) →
      chainKeyLe cmp (l.map Prod.fst) = true := by
  intro l
  induction l with
  | nil => intro _; simp [chainKeyLe]
  | cons p rest ih =>
    intro h
    rw [List.pairwise_cons] at h
    cases rest with
    | nil => simp [chainKeyLe]
    | cons q rest2 =>
      simp only [List.map_cons, chainKeyLe, Bool.and_eq_true, decide_eq_true_eq]
      exact ⟨h.1 q (by simp), by simpa using ih h.2⟩

theorem keysSortedDeep_sortDeepWith_aux (cmp : String → String → Ordering)
    (hswap : ∀ a b, cmp a b = (cmp b a).swap)
    (htrans : ∀ a b c, cmp a b ≠ .gt → cmp b c ≠ .gt → cmp a c ≠ .gt) :
    ∀ n : Nat, ∀ v : Json, sizeOf v ≤ n →
      keysSortedDeep cmp (sortDeepWith cmp v) = true := by
  intro n
  induction n with
  | zero =>
    intro v hv
    cases v <;> simp at hv
  | succ n ih =>
    intro v hv
    cases v with
    | null => simp [sortDeepWith, keysSortedDeep]
    | bool b => simp [sortDeepWith, keysSortedDeep]
    | num m => simp [sortDeepWith, keysSortedDeep]
    | str s => simp [sortDeepWith, keysSortedDeep]
    | arr items =>
      rw [sortDeepWith_arr, keysSortedDeep_arr, List.all_eq_true]
      intro x hx
      obtain ⟨y, hy, rfl⟩ := List.mem_map.mp hx
      apply ih
      have hlt := List.sizeOf_lt_of_mem hy
      simp only [Json.arr.sizeOf_spec] at hv
      omega
    | obj entries =>
      rw [sortDeepWith_obj, keysSortedDeep_obj, Bool.and_eq_true]
      constructor
      · have hkeys : ((sortEntries cmp entries).map
            (fun p => (p.1, sortDeepWith cmp p.2))).map Prod.fst =
            (sortEntries cmp entries).map Prod.fst := by
          rw [List.map_map]
          apply List.map_eq_map_iff.mpr
          intro p _
          rfl
        rw [hkeys]
        exact chainKeyLe_of_pairwise cmp (sortEntries cmp entries)
          (sortEntries_sorted cmp hswap htrans entries)
      · rw [List.all_eq_true]
        intro p hp
        obtain ⟨q, hq, rfl⟩ := List.mem_map.mp hp
        apply ih
        have hmem : q ∈ entries := mem_of_mem_sortEntries cmp q entries hq
        have hlt := List.sizeOf_lt_of_mem hmem
        obtain ⟨k, v2⟩ := q
        simp only [Json.obj.sizeOf_spec, Prod.mk.sizeOf_spec] at hv hlt
        simp only []
        omega

/-- Every object in `sortDeep v` (the source's sort, `localeCompare`
order) is recursively key-sorted under `jsLocaleCompare`. -/
theorem keysSortedDeep_sortDeep (v : Json) :
    keysSortedDeep jsLocaleCompare (sortDeep v) = true :=
  keysSortedDeep_sortDeepWith_aux jsLocaleCompare jsLocaleCompare_swap
    jsLocaleCompare_le_trans (sizeOf v) v (Nat.le_refl _)

/-- Core determinism: two objects with the same entries in different
insertion orders serialize identically, provided the comparator
strictly separates their (distinct) keys. -/
theorem canonicalJson_obj_perm (l₁ l₂ : List (String × Json))
    (hperm : l₁.Perm l₂) (hnodup : (l₁.map Prod.fst).Nodup)
    (hsep : ∀ k ∈ l₁.map Prod.fst, ∀ k2 ∈ l₁.map Prod.fst,
      jsLocaleCompare k k2 = .eq → k = k2) :
    canonicalJson (.obj l₁) = canonicalJson (.obj l₂) := by
  unfold canonicalJson sortDeep
  rw [sortDeepWith_obj, sortDeepWith_obj]
  have hstrict : ∀ p ∈ l₁, ∀ q ∈ l₁, jsLocaleCompare p.1 q.1 = .eq → p = q := by
    intro p hp q hq heq
    exact entry_eq_of_nodup_keys l₁ hnodup p hp q hq
      (hsep p.1 (List.mem_map_of_mem Prod.fst hp)
        q.1 (List.mem_map_of_mem Prod.fst hq) heq)
  rw [sortEntries_eq_of_perm jsLocaleCompare jsLocaleCompare_swap
    jsLocaleCompare_le_trans l₁ l₂ hperm hstrict]

/-! ## Hashing and derivation primitives (`session.ts`) -/

/-- Protocol tag `ACE_PAYMENT_VERSION` from `session.ts`. -/
def ACE_PAYMENT_VERSION : String := "ace-x402-v1"

/-- Model of `sha256Hex`: `node:crypto` SHA-256 is replaced by an
injective tagging of the input (see the header note); the theorems rely
only on the digest being a deterministic function of the input. -/
def sha256Hex (input : String) : String := "sha256:" ++ input

/-- ASCII upper-casing of one character.  Models JavaScript
`toUpperCase` on the ASCII strings (HTTP methods) the code upcases. -/
def asciiUpperChar (c : Char) : Char :=
  if 'a' ≤ c ∧ c ≤ 'z' then Char.ofNat (c.toNat - 32) else c

/-- ASCII lower-casing of one character.  Models JavaScript
`toLowerCase` on the ASCII strings (hex addresses, header names) the
code downcases. -/
def asciiLowerChar (c : Char) : Char :=
  if 'A' ≤ c ∧ c ≤ 'Z' then Char.ofNat (c.toNat + 32) else c

/-- Model of `s.toUpperCase()`. -/
def jsToUpperCase (s : String) : String := String.mk (s.data.map asciiUpperChar)

/-- Model of `s.toLowerCase()`. -/
def jsToLowerCase (s : String) : String := String.mk (s.data.map asciiLowerChar)

/-- A URL, represented by the `pathname`/`search` decomposition that
`new URL(u)` exposes (the only use the code makes of URLs). -/
structure Url where
  pathname : String
  search : String
deriving DecidableEq

/-- `deriveResource`: `pathname + search` of the parsed URL. -/
def deriveResource (u : Url) : String := u.pathname ++ u.search

/-- `SignRequestContext`: method, URL, and optional string body. -/
structure SignRequestContext where
  method : String
  url : Url
  body : Option String
deriving DecidableEq

/-- `PaymentChallenge`.  Timestamps are epoch milliseconds (header
note); `mac` is optional exactly as in the interface. -/
structure PaymentChallenge where
  version : String
  challengeId : String
  resource : String
  method : String
  amountMicrousdc : Int
  currency : String
  issuedAt : Int
  expiresAt : Int
  nonce : String
  mac : Option String
deriving DecidableEq

/-- JSON image of a challenge, in the field order of the TypeScript
object literal; an absent `mac` is omitted, as `JSON.stringify` omits
`undefined` properties. -/
def challengeToJson (c : PaymentChallenge) : Json :=
  .obj ([("version", .str c.version),
    ("challengeId", .str c.challengeId),
    ("resource", .str c.resource),
    ("method", .str c.method),
    ("amountMicrousdc", .num c.amountMicrousdc),
    ("currency", .str c.currency),
    ("issuedAt", .num c.issuedAt),
    ("expiresAt", .num c.expiresAt),
    ("nonce", .str c.nonce)] ++
    (match c.mac with
     | some m => [("mac", .str m)]
     | none => []))

/-- `deriveChallengeHash`: hash of the canonical form of the challenge,
MAC included. -/
def deriveChallengeHash (c : PaymentChallenge) : String :=
  sha256Hex (canonicalJson (challengeToJson c))

/-- `deriveRequestHash`: hash of the canonical
`(bodyHash, method, resource)` triple.  A missing or empty body
contributes the empty body hash (`input.body ? ... : ""` is falsy on
the empty string). -/
def deriveRequestHash (input : SignRequestContext) : String :=
  let bodyHash : String :=
    match input.body with
    | none => ""
    | some b => if b = "" then "" else sha256Hex b
  sha256Hex (canonicalJson (.obj [("bodyHash", .str bodyHash),
    ("method", .str (jsToUpperCase input.method)),
    ("resource", .str (deriveResource input.url))]))

/-- Input record of `deriveIdempotencyKey`. -/
structure DeriveKeyInput where
  sessionId : String
  payer : String
  challengeId : String
  requestHash : String
  amountMicrousdc : Int
deriving DecidableEq

/-- `deriveIdempotencyKey`: `aceid_` plus the hash of the canonical
five-field payload, with the payer lowercased. -/
def deriveIdempotencyKey (i : DeriveKeyInput) : String :=
  "aceid_" ++ sha256Hex (canonicalJson (.obj [
    ("amountMicrousdc", .num i.amountMicrousdc),
    ("challengeId", .str i.challengeId),
    ("payer", .str (jsToLowerCase i.payer)),
    ("requestHash", .str i.requestHash),
    ("sessionId", .str i.sessionId)]))

/-- `UnsignedPayment`. -/
structure UnsignedPayment where
  version : String
  sessionId : String
  payer : String
  challengeId : String
  challenge : PaymentChallenge
  idempotencyKey : String
  requestHash : String
  challengeHash : String
  amountMicrousdc : Int
  currency : String
  sessionExpiresAt : Int
  issuedAt : Int
deriving DecidableEq

/-- `SignedPayment`: an `UnsignedPayment` plus the wallet signature. -/
structure SignedPayment extends UnsignedPayment where
  signature : String
deriving DecidableEq

/-- JSON image of an unsigned payment, in TypeScript field order. -/
def unsignedToJson (p : UnsignedPayment) : Json :=
  .obj [("version", .str p.version),
    ("sessionId", .str p.sessionId),
    ("payer", .str p.payer),
    ("challengeId", .str p.challengeId),
    ("challenge", challengeToJson p.challenge),
    ("idempotencyKey", .str p.idempotencyKey),
    ("requestHash", .str p.requestHash),
    ("challengeHash", .str p.challengeHash),
    ("amountMicrousdc", .num p.amountMicrousdc),
    ("currency", .str p.currency),
    ("sessionExpiresAt", .num p.sessionExpiresAt),
    ("issuedAt", .num p.issuedAt)]

/-- `buildPaymentSigningMessage`: the literal prefix then the canonical
unsigned payment. -/
def buildPaymentSigningMessage (p : UnsignedPayment) : String :=
  "ACE_PAYMENT_V1\n" ++ canonicalJson (unsignedToJson p)

/-! ## Session state and ledger operations (`SessionKey`) -/

/-- `SessionState`.  `pendingAttempts` is the association list of
idempotency key to signed payment, in insertion order, as a JavaScript
`Record` holds it. -/
structure SessionState where
  sessionId : String
  payer : String
  spendLimitMicrousdc : Int
  createdAt : Int
  expiresAt : Int
  cumulativeSpendMicrousdc : Int
  pendingAttempts : List (String × SignedPayment)
deriving DecidableEq

/-- Record lookup `state.pendingAttempts[key]`. -/
def lookupAttempt : List (String × SignedPayment) → String → Option SignedPayment
  | [], _ => none
  | p :: rest, k => if p.1 = k then some p.2 else lookupAttempt rest k

/-- `Object.entries(...).filter(([key]) => key !== k)`: drop every entry
with the given key. -/
def removeAttempt : List (String × SignedPayment) → String → List (String × SignedPayment)
  | [], _ => []
  | p :: rest, k => if p.1 = k then removeAttempt rest k else p :: removeAttempt rest k

/-- `Object.values(...).reduce((sum, p) => sum + p.amountMicrousdc, 0)`,
written as a direct sum. -/
def sumAmounts : List (String × SignedPayment) → Int
  | [] => 0
  | p :: rest => p.2.amountMicrousdc + sumAmounts rest

/-- `SessionSnapshot` as computed by `getSnapshot`. -/
structure SessionSnapshot where
  sessionId : String
  payer : String
  spendLimitMicrousdc : Int
  expiresAt : Int
  cumulativeSpendMicrousdc : Int
  pendingSpendMicrousdc : Int
  availableSpendMicrousdc : Int
deriving DecidableEq

/-- `SessionKey.getSnapshot`. -/
def getSnapshot (s : SessionState) : SessionSnapshot :=
  let pendingSpendMicrousdc := sumAmounts s.pendingAttempts
  { sessionId := s.sessionId
    payer := s.payer
    spendLimitMicrousdc := s.spendLimitMicrousdc
    expiresAt := s.expiresAt
    cumulativeSpendMicrousdc := s.cumulativeSpendMicrousdc
    pendingSpendMicrousdc := pendingSpendMicrousdc
    availableSpendMicrousdc :=
      s.spendLimitMicrousdc - s.cumulativeSpendMicrousdc - pendingSpendMicrousdc }

/-- The fresh-session branch of `SessionKey.create`: lowercased payer,
expiry `createdAt + ttlSeconds * 1000`, zero cumulative spend, empty
pending map. -/
def createSessionState (sessionId payer : String) (spendLimitMicrousdc : Int)
    (createdAt ttlSeconds : Int) : SessionState :=
  { sessionId := sessionId
    payer := jsToLowerCase payer
    spendLimitMicrousdc := spendLimitMicrousdc
    createdAt := createdAt
    expiresAt := createdAt + ttlSeconds * 1000
    cumulativeSpendMicrousdc := 0
    pendingAttempts := [] }

/-- The errors `signForChallenge` can throw, in source order. -/
inductive SignError where
  | sessionExpired
  | unsupportedVersion
  | unsupportedCurrency
  | challengeExpired
  | methodMismatch
  | resourceMismatch
  | spendLimitExceeded
deriving DecidableEq

/-- Result of one `signForChallenge` call: the outcome (returned payment
or thrown error), the session state afterwards, and whether
`persist()` ran. -/
structure SignResult where
  outcome : Except SignError SignedPayment
  state : SessionState
  persisted : Bool

/-- `SessionKey.signForChallenge`.  `now` is the current epoch-ms time
(used both by `ensureActive` and the challenge-expiry check, and as the
payment's `issuedAt`); `signMessage` is the wallet's `signMessage`.
Every throw happens before the state update and the persist, so the
error branches return the input state with `persisted := false`. -/
def signForChallenge (s : SessionState) (challenge : PaymentChallenge)
    (request : SignRequestContext) (now : Int)
    (signMessage : String → String) : SignResult :=
  if s.expiresAt ≤ now then
    { outcome := .error .sessionExpired, state := s, persisted := false }
  else if challenge.version ≠ ACE_PAYMENT_VERSION then
    { outcome := .error .unsupportedVersion, state := s, persisted := false }
  else if challenge.currency ≠ "USDC" then
    { outcome := .error .unsupportedCurrency, state := s, persisted := false }
  else if challenge.expiresAt ≤ now then
    { outcome := .error .challengeExpired, state := s, persisted := false }
  else
    let method := jsToUpperCase request.method
    let resource := deriveResource request.url
    if challenge.method ≠ method then
      { outcome := .error .methodMismatch, state := s, persisted := false }
    else if challenge.resource ≠ resource then
      { outcome := .error .resourceMismatch, state := s, persisted := false }
    else
      let requestHash := deriveRequestHash
        { method := method, url := request.url, body := request.body }
      let idempotencyKey := deriveIdempotencyKey
        { sessionId := s.sessionId, payer := s.payer,
          challengeId := challenge.challengeId, requestHash := requestHash,
          amountMicrousdc := challenge.amountMicrousdc }
      match lookupAttempt s.pendingAttempts idempotencyKey with
      | some existing =>
        { outcome := .ok existing, state := s, persisted := false }
      | none =>
        let snapshot := getSnapshot s
        if snapshot.availableSpendMicrousdc < challenge.amountMicrousdc then
          { outcome := .error .spendLimitExceeded, state := s, persisted := false }
        else
          let unsignedPayment : UnsignedPayment :=
            { version := ACE_PAYMENT_VERSION
              sessionId := s.sessionId
              payer := s.payer
              challengeId := challenge.challengeId
              challenge := challenge
              idempotencyKey := idempotencyKey
              requestHash := requestHash
              challengeHash := deriveChallengeHash challenge
              amountMicrousdc := challenge.amountMicrousdc
              currency := challenge.currency
              sessionExpiresAt := s.expiresAt
              issuedAt := now }
          let signedPayment : SignedPayment :=
            { toUnsignedPayment := unsignedPayment
              signature := signMessage (buildPaymentSigningMessage unsignedPayment) }
          { outcome := .ok signedPayment
            state := { s with pendingAttempts :=
              s.pendingAttempts ++ [(idempotencyKey, signedPayment)] }
            persisted := true }

/-- `SessionKey.commitPayment`: the new state plus whether `persist()`
ran (`false` exactly on the absent-key no-op). -/
def commitPayment (s : SessionState) (idempotencyKey : String) :
    SessionState × Bool :=
  match lookupAttempt s.pendingAttempts idempotencyKey with
  | none => (s, false)
  | some attempt =>
    ({ s with
        cumulativeSpendMicrousdc := s.cumulativeSpendMicrousdc + attempt.amountMicrousdc
        pendingAttempts := removeAttempt s.pendingAttempts idempotencyKey }, true)

/-- `SessionKey.releasePayment`. -/
def releasePayment (s : SessionState) (idempotencyKey : String) :
    SessionState × Bool :=
  match lookupAttempt s.pendingAttempts idempotencyKey with
  | none => (s, false)
  | some _ =>
    ({ s with
        pendingAttempts := removeAttempt s.pendingAttempts idempotencyKey }, true)

/-! ## Association-list lemmas for `pendingAttempts` -/

theorem lookupAttempt_removeAttempt_self (k : String) :
    ∀ l : List (String × SignedPayment),
      lookupAttempt (removeAttempt l k) k = none := by
  intro l
  induction l with
  | nil => simp [removeAttempt, lookupAttempt]
  | cons p rest ih =>
    simp only [removeAttempt]
    split_ifs with h
    · exact ih
    · simp [lookupAttempt, h, ih]

theorem lookupAttempt_removeAttempt_ne (k k' : String) (hne : k' ≠ k) :
    ∀ l : List (String × SignedPayment),
      lookupAttempt (removeAttempt l k) k' = lookupAttempt l k' := by
  intro l
  induction l with
  | nil => simp [removeAttempt]
  | cons p rest ih =>
    simp only [removeAttempt]
    split_ifs with h1
    · rw [ih, lookupAttempt]
      have hne2 : ¬ p.1 = k' := by
        rw [h1]
        exact fun hh => hne hh.symm
      rw [if_neg hne2]
    · rw [lookupAttempt, lookupAttempt]
      split_ifs with h2
      · rfl
      · exact ih

theorem mem_of_mem_removeAttempt (k : String) (p : String × SignedPayment) :
    ∀ l : List (String × SignedPayment), p ∈ removeAttempt l k → p ∈ l := by
  intro l
  induction l with
  | nil => simp [removeAttempt]
  | cons q rest ih =>
    simp only [removeAttempt]
    split_ifs with h
    · intro hp
      exact List.mem_cons_of_mem q (ih hp)
    · intro hp
      rcases List.mem_cons.mp hp with rfl | hp'
      · exact List.mem_cons_self _ _
      · exact List.mem_cons_of_mem q (ih hp')

theorem sumAmounts_removeAttempt_le (k : String) :
    ∀ l : List (String × SignedPayment),
      (∀ p ∈ l, 0 ≤ p.2.amountMicrousdc) →
      sumAmounts (removeAttempt l k) ≤ sumAmounts l := by
  intro l
  induction l with
  | nil => simp [removeAttempt]
  | cons p rest ih =>
    intro hpos
    have hrest : ∀ q ∈ rest, 0 ≤ q.2.amountMicrousdc :=
      fun q hq => hpos q (List.mem_cons_of_mem p hq)
    have hp : 0 ≤ p.2.amountMicrousdc := hpos p (List.mem_cons_self _ _)
    simp only [removeAttempt, sumAmounts]
    split_ifs with h
    · have := ih hrest
      omega
    · simp only [sumAmounts]
      have := ih hrest
      omega

theorem sumAmounts_removeAttempt_commit (k : String) (a : SignedPayment) :
    ∀ l : List (String × SignedPayment),
      lookupAttempt l k = some a →
      (∀ p ∈ l, 0 ≤ p.2.amountMicrousdc) →
      a.amountMicrousdc + sumAmounts (removeAttempt l k) ≤ sumAmounts l := by
  intro l
  induction l with
  | nil => simp [lookupAttempt]
  | cons p rest ih =>
    intro hl hpos
    have hrest : ∀ q ∈ rest, 0 ≤ q.2.amountMicrousdc :=
      fun q hq => hpos q (List.mem_cons_of_mem p hq)
    simp only [lookupAttempt] at hl
    simp only [removeAttempt, sumAmounts]
    split_ifs at hl ⊢ with h
    · have ha : a = p.2 := by
        injection hl with hl'
        exact hl'.symm
      rw [ha]
      have := sumAmounts_removeAttempt_le k rest hrest
      omega
    · simp only [sumAmounts]
      have := ih hl hrest
      omega

theorem sumAmounts_append (l l' : List (String × SignedPayment)) :
    sumAmounts (l ++ l') = sumAmounts l + sumAmounts l' := by
  induction l with
  | nil => simp [sumAmounts]
  | cons p rest ih =>
    show sumAmounts (p :: (rest ++ l')) = sumAmounts (p :: rest) + sumAmounts l'
    rw [sumAmounts, sumAmounts, ih]
    omega

theorem lookupAttempt_append (k : String) (l l' : List (String × SignedPayment)) :
    lookupAttempt (l ++ l') k =
      match lookupAttempt l k with
      | some v => some v
      | none => lookupAttempt l' k := by
  induction l with
  | nil => simp [lookupAttempt]
  | cons p rest ih =>
    simp only [List.cons_append, lookupAttempt]
    split_ifs with h
    · rfl
    · exact ih

theorem lookupAttempt_mem (k : String) (a : SignedPayment) :
    ∀ l : List (String × SignedPayment),
      lookupAttempt l k = some a → (k, a) ∈ l := by
  intro l
  induction l with
  | nil => simp [lookupAttempt]
  | cons p rest ih =>
    intro hl
    simp only [lookupAttempt] at hl
    split_ifs at hl with h
    · injection hl with hl'
      subst hl'
      rw [← h]
      exact List.mem_cons_self _ _
    · exact List.mem_cons_of_mem p (ih hl)

/-- Number of pending entries carrying a given key. -/
def countKey : List (String × SignedPayment) → String → Nat
  | [], _ => 0
  | p :: rest, k => (if p.1 = k then 1 else 0) + countKey rest k

theorem countKey_eq_zero_of_lookup_none (k : String) :
    ∀ l : List (String × SignedPayment),
      lookupAttempt l k = none → countKey l k = 0 := by
  intro l
  induction l with
  | nil => simp [countKey]
  | cons p rest ih =>
    intro hl
    rw [lookupAttempt] at hl
    by_cases h : p.1 = k
    · rw [if_pos h] at hl
      exact absurd hl (by simp)
    · rw [if_neg h] at hl
      rw [countKey, if_neg h, ih hl]

theorem countKey_append (k : String) (l l' : List (String × SignedPayment)) :
    countKey (l ++ l') k = countKey l k + countKey l' k := by
  induction l with
  | nil => simp [countKey]
  | cons p rest ih =>
    show countKey (p :: (rest ++ l')) k = countKey (p :: rest) k + countKey l' k
    rw [countKey, countKey, ih]
    omega

theorem countKey_eq_one_of_nodup_lookup (k : String) (a : SignedPayment) :
    ∀ l : List (String × SignedPayment),
      (l.map Prod.fst).Nodup → lookupAttempt l k = some a →
      countKey l k = 1 := by
  intro l
  induction l with
  | nil => simp [lookupAttempt]
  | cons p rest ih =>
    intro hnd hl
    rw [List.map_cons, List.nodup_cons] at hnd
    simp only [lookupAttempt] at hl
    simp only [countKey]
    split_ifs at hl ⊢ with h
    · have hnot : lookupAttempt rest k = none := by
        rcases hlr : lookupAttempt rest k with _ | b
        · rfl
        · have := lookupAttempt_mem k b rest hlr
          have : k ∈ rest.map Prod.fst := List.mem_map.mpr ⟨(k, b), this, rfl⟩
          rw [h] at hnd
          exact absurd this hnd.1
      rw [countKey_eq_zero_of_lookup_none k rest hnot]
    · simp only [Nat.zero_add]
      exact ih hnd.2 hl

/-! ## Characterization of `signForChallenge` -/

/-- The request hash `signForChallenge` derives (it uppercases the
method before passing the context on). -/
def signRequestHash (r : SignRequestContext) : String :=
  deriveRequestHash { method := jsToUpperCase r.method, url := r.url, body := r.body }

/-- The idempotency key `signForChallenge` derives for a state,
challenge, and request. -/
def signKeyOf (s : SessionState) (c : PaymentChallenge)
    (r : SignRequestContext) : String :=
  deriveIdempotencyKey
    { sessionId := s.sessionId, payer := s.payer,
      challengeId := c.challengeId, requestHash := signRequestHash r,
      amountMicrousdc := c.amountMicrousdc }

/-- The signed payment built on the fresh-signature path. -/
def freshSignedPayment (s : SessionState) (c : PaymentChallenge)
    (r : SignRequestContext) (now : Int)
    (signMessage : String → String) : SignedPayment :=
  let unsignedPayment : UnsignedPayment :=
    { version := ACE_PAYMENT_VERSION
      sessionId := s.sessionId
      payer := s.payer
      challengeId := c.challengeId
      challenge := c
      idempotencyKey := signKeyOf s c r
      requestHash := signRequestHash r
      challengeHash := deriveChallengeHash c
      amountMicrousdc := c.amountMicrousdc
      currency := c.currency
      sessionExpiresAt := s.expiresAt
      issuedAt := now }
  { toUnsignedPayment := unsignedPayment
    signature := signMessage (buildPaymentSigningMessage unsignedPayment) }

/-- `signForChallenge` restated as one nested conditional; definitional
unfolding of the source translation. -/
theorem signForChallenge_eq_alt (s : SessionState) (c : PaymentChallenge)
    (r : SignRequestContext) (now : Int) (f : String → String) :
    signForChallenge s c r now f =
      if s.expiresAt ≤ now then
        { outcome := .error .sessionExpired, state := s, persisted := false }
      else if c.version ≠ ACE_PAYMENT_VERSION then
        { outcome := .error .unsupportedVersion, state := s, persisted := false }
      else if c.currency ≠ "USDC" then
        { outcome := .error .unsupportedCurrency, state := s, persisted := false }
      else if c.expiresAt ≤ now then
        { outcome := .error .challengeExpired, state := s, persisted := false }
      else if c.method ≠ jsToUpperCase r.method then
        { outcome := .error .methodMismatch, state := s, persisted := false }
      else if c.resource ≠ deriveResource r.url then
        { outcome := .error .resourceMismatch, state := s, persisted := false }
      else
        match lookupAttempt s.pendingAttempts (signKeyOf s c r) with
        | some existing =>
          { outcome := .ok existing, state := s, persisted := false }
        | none =>
          if (getSnapshot s).availableSpendMicrousdc < c.amountMicrousdc then
            { outcome := .error .spendLimitExceeded, state := s, persisted := false }
          else
            { outcome := .ok (freshSignedPayment s c r now f)
              state := { s with pendingAttempts := s.pendingAttempts ++
                [(signKeyOf s c r, freshSignedPayment s c r now f)] }
              persisted := true } := by
  rfl

theorem lookupAttempt_none_not_mem_keys (k : String) :
    ∀ l : List (String × SignedPayment),
      lookupAttempt l k = none → k ∉ l.map Prod.fst := by
  intro l
  induction l with
  | nil => simp
  | cons p rest ih =>
    intro hl
    rw [lookupAttempt] at hl
    by_cases h : p.1 = k
    · rw [if_pos h] at hl
      exact absurd hl (by simp)
    · rw [if_neg h] at hl
      simp only [List.map_cons, List.mem_cons]
      rintro (rfl | hmem)
      · exact h rfl
      · exact ih hl hmem

/-- Thrown errors leave the session untouched: the state is returned
unchanged and nothing is persisted. -/
theorem sign_error_frame (s : SessionState) (c : PaymentChallenge)
    (r : SignRequestContext) (now : Int) (f : String → String) (e : SignError)
    (h : (signForChallenge s c r now f).outcome = .error e) :
    (signForChallenge s c r now f).state = s ∧
    (signForChallenge s c r now f).persisted = false := by
  rw [signForChallenge_eq_alt] at h ⊢
  split_ifs at h ⊢ <;> try exact ⟨rfl, rfl⟩
  all_goals rcases hl : lookupAttempt s.pendingAttempts (signKeyOf s c r) with _ | q
  all_goals rw [hl] at h
  all_goals try exact ⟨rfl, rfl⟩
  all_goals simp at h

/-- Any result that did not persist (an error or the idempotent
short-circuit) is independent of the wallet signer: no signature is
requested on those paths. -/
theorem sign_indep_of_not_persisted (s : SessionState) (c : PaymentChallenge)
    (r : SignRequestContext) (now : Int) (f g : String → String)
    (h : (signForChallenge s c r now f).persisted = false) :
    signForChallenge s c r now g = signForChallenge s c r now f := by
  rw [signForChallenge_eq_alt] at h
  rw [signForChallenge_eq_alt s c r now f, signForChallenge_eq_alt s c r now g]
  split_ifs at h ⊢ <;> try rfl
  all_goals rcases hl : lookupAttempt s.pendingAttempts (signKeyOf s c r) with _ | q
  all_goals rw [hl] at h
  all_goals try rfl
  all_goals simp at h

/-- Inversion of a successful `signForChallenge`: the shape checks all
passed, the session identity fields are untouched, the returned payment
is retrievable in the resulting state under the derived key, and the
pending list either was left unchanged (idempotent short-circuit) or
had exactly the returned payment appended under a previously absent
key. -/
theorem sign_ok_results (s : SessionState) (c : PaymentChallenge)
    (r : SignRequestContext) (now : Int) (f : String → String)
    (p : SignedPayment)
    (h : (signForChallenge s c r now f).outcome = .ok p) :
    c.version = ACE_PAYMENT_VERSION ∧ c.currency = "USDC" ∧
    c.method = jsToUpperCase r.method ∧ c.resource = deriveResource r.url ∧
    now < s.expiresAt ∧ now < c.expiresAt ∧
    (signForChallenge s c r now f).state.sessionId = s.sessionId ∧
    (signForChallenge s c r now f).state.payer = s.payer ∧
    (signForChallenge s c r now f).state.expiresAt = s.expiresAt ∧
    (signForChallenge s c r now f).state.spendLimitMicrousdc = s.spendLimitMicrousdc ∧
    lookupAttempt (signForChallenge s c r now f).state.pendingAttempts
      (signKeyOf s c r) = some p ∧
    ((signForChallenge s c r now f).state.pendingAttempts = s.pendingAttempts ∨
      ((signForChallenge s c r now f).state.pendingAttempts =
          s.pendingAttempts ++ [(signKeyOf s c r, p)] ∧
        lookupAttempt s.pendingAttempts (signKeyOf s c r) = none)) := by
  rw [signForChallenge_eq_alt] at h ⊢
  split_ifs at h ⊢ with h1 h2 h3 h4 h5 h6 h7 <;> try simp at h
  · rcases hl : lookupAttempt s.pendingAttempts (signKeyOf s c r) with _ | q
    · rw [hl] at h
      simp at h
    · rw [hl] at h
      simp only [Except.ok.injEq] at h
      subst h
      exact ⟨by simpa using h2, by simpa using h3, by simpa using h5,
        by simpa using h6, by omega, by omega, rfl, rfl, rfl, rfl, hl, Or.inl rfl⟩
  · rcases hl : lookupAttempt s.pendingAttempts (signKeyOf s c r) with _ | q
    · rw [hl] at h
      simp only [Except.ok.injEq] at h
      subst h
      refine ⟨by simpa using h2, by simpa using h3, by simpa using h5,
        by simpa using h6, by omega, by omega, rfl, rfl, rfl, rfl, ?_, ?_⟩
      · show lookupAttempt (s.pendingAttempts ++
          [(signKeyOf s c r, freshSignedPayment s c r now f)]) (signKeyOf s c r) =
          some (freshSignedPayment s c r now f)
        rw [lookupAttempt_append, hl]
        simp [lookupAttempt]
      · exact Or.inr ⟨rfl, rfl⟩
    · rw [hl] at h
      simp only [Except.ok.injEq] at h
      subst h
      exact ⟨by simpa using h2, by simpa using h3, by simpa using h5,
        by simpa using h6, by omega, by omega, rfl, rfl, rfl, rfl, hl, Or.inl rfl⟩

/-- Shape of the state after `signForChallenge`: unchanged, or with one
entry appended whose amount is the challenge amount and which fit in the
available spend. -/
theorem sign_state_shape (s : SessionState) (c : PaymentChallenge)
    (r : SignRequestContext) (now : Int) (f : String → String) :
    (signForChallenge s c r now f).state = s ∨
    ∃ p : SignedPayment, p.amountMicrousdc = c.amountMicrousdc ∧
      c.amountMicrousdc ≤ (getSnapshot s).availableSpendMicrousdc ∧
      (signForChallenge s c r now f).state =
        { s with pendingAttempts := s.pendingAttempts ++ [(signKeyOf s c r, p)] } := by
  rw [signForChallenge_eq_alt]
  split_ifs with h1 h2 h3 h4 h5 h6 h7 <;> try exact Or.inl rfl
  · rcases hl : lookupAttempt s.pendingAttempts (signKeyOf s c r) with _ | q
    · exact Or.inl rfl
    · exact Or.inl rfl
  · rcases hl : lookupAttempt s.pendingAttempts (signKeyOf s c r) with _ | q
    · exact Or.inr ⟨freshSignedPayment s c r now f, rfl, by omega, rfl⟩
    · exact Or.inl rfl

/-! ## Operation sequences and invariants -/

/-- One ledger operation, with the ambient inputs a caller supplies. -/
inductive SessionOp where
  | sign (challenge : PaymentChallenge) (request : SignRequestContext)
      (now : Int) (signMessage : String → String) : SessionOp
  | commit (idempotencyKey : String) : SessionOp
  | release (idempotencyKey : String) : SessionOp

/-- State transition of one operation (the thrown error of a failed
sign leaves the state unchanged, as `sign_error_frame` shows). -/
def applyOp (s : SessionState) : SessionOp → SessionState
  | .sign c r now f => (signForChallenge s c r now f).state
  | .commit k => (commitPayment s k).1
  | .release k => (releasePayment s k).1

/-- Run a sequence of ledger operations. -/
def runOps (s : SessionState) (ops : List SessionOp) : SessionState :=
  List.foldl applyOp s ops

/-- The data-model requirement that challenge amounts are positive,
per operation. -/
def opPos : SessionOp → Bool
  | .sign c _ _ _ => decide (0 < c.amountMicrousdc)
  | .commit _ => true
  | .release _ => true

/-- Spend safety: cumulative plus pending spend within the limit. -/
def SpendSafe (s : SessionState) : Prop :=
  s.cumulativeSpendMicrousdc + sumAmounts s.pendingAttempts ≤ s.spendLimitMicrousdc

/-- All pending attempts carry positive amounts. -/
def PendingPos (s : SessionState) : Prop :=
  ∀ p ∈ s.pendingAttempts, 0 < p.2.amountMicrousdc

theorem applyOp_preserves (s : SessionState) (op : SessionOp)
    (hpos : PendingPos s) (hop : opPos op = true) :
    PendingPos (applyOp s op) ∧
      s.cumulativeSpendMicrousdc ≤ (applyOp s op).cumulativeSpendMicrousdc ∧
      (SpendSafe s → SpendSafe (applyOp s op)) := by
  cases op with
  | sign c r now f =>
    simp only [opPos, decide_eq_true_eq] at hop
    rcases sign_state_shape s c r now f with hsh | ⟨p, hamt, havail, hsh⟩
    · rw [applyOp, hsh]
      exact ⟨hpos, le_refl _, fun h => h⟩
    · rw [applyOp, hsh]
      refine ⟨?_, le_refl _, ?_⟩
      · intro q hq
        rcases List.mem_append.mp hq with hq' | hq'
        · exact hpos q hq'
        · have : q = (signKeyOf s c r, p) := by simpa using hq'
          rw [this]
          simpa [hamt] using hop
      · intro hsafe
        unfold SpendSafe at *
        simp only [sumAmounts_append, sumAmounts, hamt]
        simp only [getSnapshot] at havail
        omega
  | commit k =>
    rw [applyOp]
    rcases hl : lookupAttempt s.pendingAttempts k with _ | a
    · rw [commitPayment, hl]
      exact ⟨hpos, le_refl _, fun h => h⟩
    · rw [commitPayment, hl]
      have hpos0 : ∀ p ∈ s.pendingAttempts, 0 ≤ p.2.amountMicrousdc :=
        fun p hp => le_of_lt (hpos p hp)
      have hsum := sumAmounts_removeAttempt_commit k a s.pendingAttempts hl hpos0
      have hamem := lookupAttempt_mem k a s.pendingAttempts hl
      have hapos : 0 < a.amountMicrousdc := hpos (k, a) hamem
      refine ⟨?_, ?_, ?_⟩
      · intro q hq
        exact hpos q (mem_of_mem_removeAttempt k q s.pendingAttempts hq)
      · simp only []
        omega
      · intro hsafe
        unfold SpendSafe at *
        simp only []
        omega
  | release k =>
    rw [applyOp]
    rcases hl : lookupAttempt s.pendingAttempts k with _ | a
    · rw [releasePayment, hl]
      exact ⟨hpos, le_refl _, fun h => h⟩
    · rw [releasePayment, hl]
      have hpos0 : ∀ p ∈ s.pendingAttempts, 0 ≤ p.2.amountMicrousdc :=
        fun p hp => le_of_lt (hpos p hp)
      have hsum := sumAmounts_removeAttempt_le k s.pendingAttempts hpos0
      refine ⟨?_, ?_, ?_⟩
      · intro q hq
        exact hpos q (mem_of_mem_removeAttempt k q s.pendingAttempts hq)
      · simp only []
        omega
      · intro hsafe
        unfold SpendSafe at *
        simp only []
        omega

theorem runOps_preserves (ops : List SessionOp) :
    ∀ s : SessionState, PendingPos s →
      ops.all opPos = true →
      PendingPos (runOps s ops) ∧
        s.cumulativeSpendMicrousdc ≤ (runOps s ops).cumulativeSpendMicrousdc ∧
        (SpendSafe s → SpendSafe (runOps s ops)) := by
  induction ops with
  | nil =>
    intro s h2 _
    exact ⟨h2, le_refl _, fun h => h⟩
  | cons op rest ih =>
    intro s h2 hall
    rw [List.all_cons, Bool.and_eq_true] at hall
    have hstep := applyOp_preserves s op h2 hall.1
    have hrest := ih (applyOp s op) hstep.1 hall.2
    exact ⟨hrest.1, le_trans hstep.2.1 hrest.2.1,
      fun hsafe => hrest.2.2 (hstep.2.2 hsafe)⟩

theorem releasePayment_cum (s : SessionState) (k : String) :
    (releasePayment s k).1.cumulativeSpendMicrousdc =
      s.cumulativeSpendMicrousdc := by
  rcases hl : lookupAttempt s.pendingAttempts k with _ | a <;>
    rw [releasePayment, hl]

theorem releasePayment_lookup_self (s : SessionState) (k : String) :
    lookupAttempt (releasePayment s k).1.pendingAttempts k = none := by
  rcases hl : lookupAttempt s.pendingAttempts k with _ | a
  · rw [releasePayment, hl]
    exact hl
  · rw [releasePayment, hl]
    exact lookupAttempt_removeAttempt_self k s.pendingAttempts

theorem sign_cum_unchanged (s : SessionState) (c : PaymentChallenge)
    (r : SignRequestContext) (now : Int) (f : String → String) :
    (signForChallenge s c r now f).state.cumulativeSpendMicrousdc =
      s.cumulativeSpendMicrousdc := by
  rcases sign_state_shape s c r now f with hsh | ⟨p, _, _, hsh⟩ <;> rw [hsh]

/-! ## Interceptor model (`x402-interceptor.ts`)

HTTP artifacts are modelled at decoding granularity: a header either is
absent (`none`), present but undecodable (`some (.error ())`), or
decodes to its structured value; the response body JSON likewise.
-/

/-- One `accepts` entry of the `PAYMENT-REQUIRED` envelope. -/
structure X402Accept where
  scheme : String
  network : String
  amount : String
  asset : String
  payTo : String
  extraChallenge : Option PaymentChallenge
deriving DecidableEq

/-- The `X402PaymentRequired` envelope. -/
structure X402PaymentRequired where
  x402Version : Int
  error : String
  accepts : List X402Accept
deriving DecidableEq

/-- The `for (const acceptance of required.accepts)` loop: first entry
whose `extra.challenge` exists and is version-matched wins. -/
def scanAccepts : List X402Accept → Option PaymentChallenge
  | [] => none
  | a :: rest =>
    match a.extraChallenge with
    | some c =>
      if c.version = ACE_PAYMENT_VERSION then some c else scanAccepts rest
    | none => scanAccepts rest

/-- `extractChallengeFromRequired`. -/
def extractChallengeFromRequired (required : X402PaymentRequired) :
    Option PaymentChallenge :=
  if required.accepts.length = 0 then none
  else scanAccepts required.accepts

/-- A response as the interceptor observes it. -/
structure InterceptResponse where
  status : Int
  paymentRequired : Option (Except Unit X402PaymentRequired)
  contentTypeJson : Bool
  bodyChallenge : Except Unit (Option PaymentChallenge)
  echoedPayment : Option (Except Unit SignedPayment)

/-- Result of `extractChallenge`: the challenge found (or the body-parse
throw), plus whether the response body was read. -/
structure ExtractResult where
  challenge : Except Unit (Option PaymentChallenge)
  bodyRead : Bool

/-- The challenge the header path yields: a present, successfully
decoded `PAYMENT-REQUIRED` header whose `accepts` hold a version-matched
challenge; `none` on an absent header, a decoding failure (the `catch`),
or no version match. -/
def headerChallengeOf (response : InterceptResponse) : Option PaymentChallenge :=
  match response.paymentRequired with
  | some (.ok required) => extractChallengeFromRequired required
  | _ => none

/-- `extractChallenge`: try the `PAYMENT-REQUIRED` header (decoding
failures are caught), then fall through to the JSON body. -/
def extractChallenge (response : InterceptResponse) : ExtractResult :=
  match headerChallengeOf response with
  | some c => { challenge := .ok (some c), bodyRead := false }
  | none =>
    if ¬ response.contentTypeJson then
      { challenge := .ok none, bodyRead := false }
    else
      match response.bodyChallenge with
      | .error e => { challenge := .error e, bodyRead := true }
      | .ok none => { challenge := .ok none, bodyRead := true }
      | .ok (some c) =>
        if c.version = ACE_PAYMENT_VERSION then
          { challenge := .ok (some c), bodyRead := true }
        else
          { challenge := .ok none, bodyRead := true }

/-- A request as the interceptor receives it (`input`/`init` already
resolved to method, URL, optional string body, and headers). -/
structure InterceptRequest where
  method : String
  url : Url
  body : Option String
  headers : List (String × String)

/-- The already-paid guard: `Headers.has` is case-insensitive. -/
def hasPaymentHeader (headers : List (String × String)) : Bool :=
  headers.any (fun h => jsToLowerCase h.1 == "payment-signature" ||
    jsToLowerCase h.1 == "x-payment" || jsToLowerCase h.1 == "x-ace-payment")

/-- Everything `x402Fetch` can throw. -/
inductive InterceptError where
  | bodyParse : InterceptError
  | signError (e : SignError) : InterceptError
  | transport (e : String) : InterceptError
  | echoDecode : InterceptError
deriving DecidableEq

/-- Result of one `x402Fetch` call: the returned response or thrown
error, the session state afterwards, and the instrumented lists of
idempotency keys passed to `releasePayment` and `commitPayment`. -/
structure InterceptRun where
  outcome : Except InterceptError InterceptResponse
  state : SessionState
  released : List String
  committed : List String

/-- The interceptor returned by `createX402Interceptor`.  The transport
is supplied as the outcome of the first call (`firstResponse`; a throw
there propagates trivially and is omitted) and of the retry
(`retryResult`, `.error` for a transport throw). -/
def x402Fetch (sessionKey : SessionState) (request : InterceptRequest)
    (firstResponse : InterceptResponse)
    (retryResult : Except String InterceptResponse)
    (now : Int) (signMessage : String → String) : InterceptRun :=
  if firstResponse.status ≠ 402 then
    { outcome := .ok firstResponse, state := sessionKey,
      released := [], committed := [] }
  else if hasPaymentHeader request.headers then
    { outcome := .ok firstResponse, state := sessionKey,
      released := [], committed := [] }
  else
    match (extractChallenge firstResponse).challenge with
    | .error _ =>
      { outcome := .error .bodyParse, state := sessionKey,
        released := [], committed := [] }
    | .ok none =>
      { outcome := .ok firstResponse, state := sessionKey,
        released := [], committed := [] }
    | .ok (some challenge) =>
      let signResult := signForChallenge sessionKey challenge
        { method := jsToUpperCase request.method, url := request.url,
          body := request.body } now signMessage
      match signResult.outcome with
      | .error e =>
        { outcome := .error (.signError e), state := signResult.state,
          released := [], committed := [] }
      | .ok signed =>
        match retryResult with
        | .error e =>
          { outcome := .error (.transport e),
            state := (releasePayment signResult.state signed.idempotencyKey).1,
            released := [signed.idempotencyKey], committed := [] }
        | .ok retryResponse =>
          if 200 ≤ retryResponse.status ∧ retryResponse.status ≤ 299 then
            match retryResponse.echoedPayment with
            | some (.ok echoed) =>
              { outcome := .ok retryResponse,
                state := (commitPayment signResult.state echoed.idempotencyKey).1,
                released := [], committed := [echoed.idempotencyKey] }
            | some (.error _) =>
              { outcome := .error .echoDecode, state := signResult.state,
                released := [], committed := [] }
            | none =>
              { outcome := .ok retryResponse,
                state := (commitPayment signResult.state signed.idempotencyKey).1,
                released := [], committed := [signed.idempotencyKey] }
          else
            { outcome := .ok retryResponse,
              state := (releasePayment signResult.state signed.idempotencyKey).1,
              released := [signed.idempotencyKey], committed := [] }

/-! ## Origin payment-ledger model (demo compute server) -/

/-- The computed work product. -/
structure ComputeResult where
  computeId : String
  output : String
deriving DecidableEq

/-- `PaymentLogRecord` of the origin ledger. -/
structure PaymentLogRecord where
  idempotencyKey : String
  payer : String
  amountMicrousdc : Int
  requestHash : String
  challengeId : String
  paidAt : String
  result : ComputeResult
deriving DecidableEq

/-- `Map.get` over the ledger. -/
def ledgerGet : List (String × PaymentLogRecord) → String → Option PaymentLogRecord
  | [], _ => none
  | p :: rest, k => if p.1 = k then some p.2 else ledgerGet rest k

/-- `Map.set`: update in place, else append. -/
def ledgerSet : List (String × PaymentLogRecord) → PaymentLogRecord →
    List (String × PaymentLogRecord)
  | [], record => [(record.idempotencyKey, record)]
  | p :: rest, record =>
    if p.1 = record.idempotencyKey then (record.idempotencyKey, record) :: rest
    else p :: ledgerSet rest record

/-- The origin's reply on the paid path: a `200` body or the `409`
conflict. -/
inductive OriginReply where
  | paid (replayed : Bool) (result : ComputeResult) (idempotencyKey : String)
      (amountMicrousdc : Int) : OriginReply
  | conflict : OriginReply
deriving DecidableEq

/-- HTTP status of a reply. -/
def replyStatus : OriginReply → Int
  | .paid _ _ _ _ => 200
  | .conflict => 409

/-- The ledger consultation of the request handler, after
`validateSignedPayment` has passed: replay on a full match, conflict on
any mismatch of payer (lowercased), amount, or request hash, otherwise
compute and persist a fresh record. -/
def handleValidatedPayment (ledger : List (String × PaymentLogRecord))
    (payment : SignedPayment) (fresh : ComputeResult) (paidAt : String) :
    OriginReply × List (String × PaymentLogRecord) :=
  match ledgerGet ledger payment.idempotencyKey with
  | some existing =>
    if existing.payer ≠ jsToLowerCase payment.payer ∨
        existing.amountMicrousdc ≠ payment.amountMicrousdc ∨
        existing.requestHash ≠ payment.requestHash then
      (.conflict, ledger)
    else
      (.paid true existing.result existing.idempotencyKey
        existing.amountMicrousdc, ledger)
  | none =>
    let record : PaymentLogRecord :=
      { idempotencyKey := payment.idempotencyKey
        payer := jsToLowerCase payment.payer
        amountMicrousdc := payment.amountMicrousdc
        requestHash := payment.requestHash
        challengeId := payment.challengeId
        paidAt := paidAt
        result := fresh }
    (.paid false fresh record.idempotencyKey record.amountMicrousdc,
      ledgerSet ledger record)

/-! ## Claim theorems -/

/-- Example fixtures used by witnesses. -/
def exampleChallenge : PaymentChallenge :=
  { version := "ace-x402-v1", challengeId := "ch-1",
    resource := "/compute", method := "GET", amountMicrousdc := 250000,
    currency := "USDC", issuedAt := 0, expiresAt := 10000, nonce := "n",
    mac := none }

/-- Example signed payment used by witnesses. -/
def examplePayment : SignedPayment :=
  { version := "ace-x402-v1", sessionId := "sess-1", payer := "0xabc",
    challengeId := "ch-1",
    challenge := exampleChallenge,
    idempotencyKey := "aceid_k1", requestHash := "rh", challengeHash := "chh",
    amountMicrousdc := 250000, currency := "USDC",
    sessionExpiresAt := 86400000, issuedAt := 0, signature := "sig" }

/-- A session holding one pending attempt, for witnesses. -/
def exampleState : SessionState :=
  { sessionId := "sess-1", payer := "0xabc", spendLimitMicrousdc := 1000000,
    createdAt := 0, expiresAt := 86400000, cumulativeSpendMicrousdc := 0,
    pendingAttempts := [("aceid_k1", examplePayment)] }

/-- Claim C7 (confirmed): `commitPayment` is a no-op when the key is
absent from `pendingAttempts`; when present it adds exactly that
attempt's `amountMicrousdc` to `cumulativeSpendMicrousdc`, removes the
key, and persists; hence committing the same key twice after one sign
charges the amount exactly once. -/
theorem c7_commitPayment_spec (s : SessionState) (k : String) :
    (lookupAttempt s.pendingAttempts k = none → commitPayment s k = (s, false)) ∧
    (∀ a : SignedPayment, lookupAttempt s.pendingAttempts k = some a →
      (commitPayment s k).1.cumulativeSpendMicrousdc =
        s.cumulativeSpendMicrousdc + a.amountMicrousdc ∧
      lookupAttempt (commitPayment s k).1.pendingAttempts k = none ∧
      (commitPayment s k).2 = true) ∧
    (commitPayment (commitPayment s k).1 k).1.cumulativeSpendMicrousdc =
      (commitPayment s k).1.cumulativeSpendMicrousdc := by
  rcases hl : lookupAttempt s.pendingAttempts k with _ | a
  · have hcp : commitPayment s k = (s, false) := by
      rw [commitPayment, hl]
    refine ⟨fun _ => hcp, ?_, ?_⟩
    · intro a ha
      exact absurd ha (by simp)
    · rw [hcp]
      rw [hcp]
  · have hcp : commitPayment s k =
        ({ s with
            cumulativeSpendMicrousdc := s.cumulativeSpendMicrousdc + a.amountMicrousdc
            pendingAttempts := removeAttempt s.pendingAttempts k }, true) := by
      rw [commitPayment, hl]
    have hnone : lookupAttempt (removeAttempt s.pendingAttempts k) k = none :=
      lookupAttempt_removeAttempt_self k s.pendingAttempts
    refine ⟨?_, ?_, ?_⟩
    · intro h
      exact absurd h (by simp)
    · intro a2 ha2
      have ha : a2 = a := by
        injection ha2 with h
        exact h.symm
      subst ha
      rw [hcp]
      exact ⟨rfl, hnone, rfl⟩
    · rw [hcp]
      rw [commitPayment]
      simp only [hnone]

/-- Witness for C7 at a concrete session with one pending attempt. -/
theorem c7_commitPayment_witness :
    (commitPayment exampleState "aceid_k1").1.cumulativeSpendMicrousdc =
      exampleState.cumulativeSpendMicrousdc + examplePayment.amountMicrousdc ∧
    lookupAttempt (commitPayment exampleState "aceid_k1").1.pendingAttempts
      "aceid_k1" = none ∧
    (commitPayment exampleState "aceid_k1").2 = true :=
  (c7_commitPayment_spec exampleState "aceid_k1").2.1 examplePayment rfl

/-- Claim C10 (confirmed): `commitPayment` and `releasePayment` leave
`sessionId`, `payer`, `spendLimitMicrousdc`, `createdAt`, and
`expiresAt` unchanged, and leave every pending entry under a different
key unchanged; `releasePayment` additionally leaves
`cumulativeSpendMicrousdc` unchanged. -/
theorem c10_frame_commit_release (s : SessionState) (k k2 : String)
    (hne : k2 ≠ k) :
    (commitPayment s k).1.sessionId = s.sessionId ∧
    (commitPayment s k).1.payer = s.payer ∧
    (commitPayment s k).1.spendLimitMicrousdc = s.spendLimitMicrousdc ∧
    (commitPayment s k).1.createdAt = s.createdAt ∧
    (commitPayment s k).1.expiresAt = s.expiresAt ∧
    lookupAttempt (commitPayment s k).1.pendingAttempts k2 =
      lookupAttempt s.pendingAttempts k2 ∧
    (releasePayment s k).1.sessionId = s.sessionId ∧
    (releasePayment s k).1.payer = s.payer ∧
    (releasePayment s k).1.spendLimitMicrousdc = s.spendLimitMicrousdc ∧
    (releasePayment s k).1.createdAt = s.createdAt ∧
    (releasePayment s k).1.expiresAt = s.expiresAt ∧
    lookupAttempt (releasePayment s k).1.pendingAttempts k2 =
      lookupAttempt s.pendingAttempts k2 ∧
    (releasePayment s k).1.cumulativeSpendMicrousdc =
      s.cumulativeSpendMicrousdc := by
  rcases hl : lookupAttempt s.pendingAttempts k with _ | a <;>
    rw [commitPayment, releasePayment, hl] <;>
    simp [lookupAttempt_removeAttempt_ne k k2 hne]

/-- Witness for C10 at a concrete state and distinct keys. -/
theorem c10_frame_witness :
    (commitPayment exampleState "aceid_k1").1.payer = exampleState.payer ∧
    lookupAttempt (commitPayment exampleState "aceid_k1").1.pendingAttempts
      "aceid_other" = lookupAttempt exampleState.pendingAttempts "aceid_other" ∧
    (releasePayment exampleState "aceid_k1").1.cumulativeSpendMicrousdc =
      exampleState.cumulativeSpendMicrousdc := by
  have h := c10_frame_commit_release exampleState "aceid_k1" "aceid_other"
    (by decide)
  exact ⟨h.2.1, h.2.2.2.2.2.1, h.2.2.2.2.2.2.2.2.2.2.2.2⟩

/-- Claim C4 (confirmed): on a ledger hit, the origin replies `200` with
`replayed = true` and the stored result when the stored payer
(compared against the lowercased payment payer), amount, and request
hash all match, writing nothing; any mismatch of those three fields
yields `409 idempotency_key_conflict`, also writing nothing. -/
theorem c4_origin_replay (ledger : List (String × PaymentLogRecord))
    (payment : SignedPayment) (fresh : ComputeResult) (paidAt : String)
    (existing : PaymentLogRecord)
    (hget : ledgerGet ledger payment.idempotencyKey = some existing) :
    ((existing.payer = jsToLowerCase payment.payer ∧
        existing.amountMicrousdc = payment.amountMicrousdc ∧
        existing.requestHash = payment.requestHash) →
      handleValidatedPayment ledger payment fresh paidAt =
        (.paid true existing.result existing.idempotencyKey
          existing.amountMicrousdc, ledger) ∧
      replyStatus (handleValidatedPayment ledger payment fresh paidAt).1 = 200) ∧
    ((existing.payer ≠ jsToLowerCase payment.payer ∨
        existing.amountMicrousdc ≠ payment.amountMicrousdc ∨
        existing.requestHash ≠ payment.requestHash) →
      handleValidatedPayment ledger payment fresh paidAt = (.conflict, ledger) ∧
      replyStatus (handleValidatedPayment ledger payment fresh paidAt).1 = 409) := by
  constructor
  · intro hmatch
    have hcond : ¬ (existing.payer ≠ jsToLowerCase payment.payer ∨
        existing.amountMicrousdc ≠ payment.amountMicrousdc ∨
        existing.requestHash ≠ payment.requestHash) := by
      push_neg
      exact ⟨hmatch.1, hmatch.2.1, hmatch.2.2⟩
    have heq : handleValidatedPayment ledger payment fresh paidAt =
        (.paid true existing.result existing.idempotencyKey
          existing.amountMicrousdc, ledger) := by
      simp only [handleValidatedPayment, hget]
      rw [if_neg hcond]
    rw [heq]
    exact ⟨rfl, rfl⟩
  · intro hmis
    have heq : handleValidatedPayment ledger payment fresh paidAt =
        (.conflict, ledger) := by
      simp only [handleValidatedPayment, hget]
      rw [if_pos hmis]
    rw [heq]
    exact ⟨rfl, rfl⟩

/-- Example ledger record matching `examplePayment`, for the C4
witness. -/
def exampleRecord : PaymentLogRecord :=
  { idempotencyKey := "aceid_k1", payer := jsToLowerCase examplePayment.payer,
    amountMicrousdc := 250000, requestHash := "rh", challengeId := "ch-1",
    paidAt := "t0", result := { computeId := "c-1", output := "done" } }

/-- Witness for C4: replay on a full match, conflict on an amount
mismatch, at concrete inputs. -/
theorem c4_origin_replay_witness :
    (handleValidatedPayment [("aceid_k1", exampleRecord)] examplePayment
        { computeId := "c-2", output := "fresh" } "t1" =
      (.paid true exampleRecord.result exampleRecord.idempotencyKey
        exampleRecord.amountMicrousdc, [("aceid_k1", exampleRecord)])) ∧
    (handleValidatedPayment [("aceid_k1", exampleRecord)]
        { examplePayment with amountMicrousdc := 999 }
        { computeId := "c-2", output := "fresh" } "t1" =
      (.conflict, [("aceid_k1", exampleRecord)])) := by
  constructor
  · exact ((c4_origin_replay [("aceid_k1", exampleRecord)] examplePayment
      { computeId := "c-2", output := "fresh" } "t1" exampleRecord rfl).1
      (by decide)).1
  · exact ((c4_origin_replay [("aceid_k1", exampleRecord)]
      { examplePayment with amountMicrousdc := 999 }
      { computeId := "c-2", output := "fresh" } "t1" exampleRecord rfl).2
      (Or.inr (Or.inl (by decide)))).1

/-- Claim C2 (confirmed): starting from a freshly created session (the
micro-USDC data model makes the spend limit non-negative — `authorize`
obtains it from `toMicrousdc`, which rejects non-positive values) and
applying any sequence of `signForChallenge`, `commitPayment`, and
`releasePayment` operations whose challenge amounts are positive,
`cumulativeSpendMicrousdc` plus the pending amounts never exceeds
`spendLimitMicrousdc`.  Since the sequence is universally quantified,
every prefix — every observable state — is an instance. -/
theorem c2_spend_safety (sessionId payer : String)
    (spendLimitMicrousdc createdAt ttlSeconds : Int) (ops : List SessionOp)
    (hlimit : 0 ≤ spendLimitMicrousdc) (hops : ops.all opPos = true) :
    SpendSafe (runOps
      (createSessionState sessionId payer spendLimitMicrousdc createdAt ttlSeconds)
      ops) := by
  have hstart : SpendSafe
      (createSessionState sessionId payer spendLimitMicrousdc createdAt ttlSeconds) := by
    unfold SpendSafe createSessionState
    simp [sumAmounts]
    omega
  have hpos : PendingPos
      (createSessionState sessionId payer spendLimitMicrousdc createdAt ttlSeconds) := by
    intro p hp
    simp [createSessionState] at hp
  exact (runOps_preserves ops _ hpos hops).2.2 hstart

/-- Witness for C2: a fresh 1 USDC session with a commit and a release
against an absent key. -/
theorem c2_spend_safety_witness :
    SpendSafe (runOps (createSessionState "sess-1" "0xAbC" 1000000 0 3600)
      [SessionOp.commit "aceid_k1", SessionOp.release "aceid_k2"]) :=
  c2_spend_safety "sess-1" "0xAbC" 1000000 0 3600
    [SessionOp.commit "aceid_k1", SessionOp.release "aceid_k2"]
    (by decide) (by decide)

/-- Claim C8 (confirmed): on any session whose pending amounts are
positive, no sequence of `signForChallenge`, `commitPayment`, and
`releasePayment` operations (with positive challenge amounts, as the
data model requires) ever decreases `cumulativeSpendMicrousdc`. -/
theorem c8_spend_monotonic (s : SessionState) (ops : List SessionOp)
    (hpos : PendingPos s) (hops : ops.all opPos = true) :
    s.cumulativeSpendMicrousdc ≤ (runOps s ops).cumulativeSpendMicrousdc :=
  (runOps_preserves ops s hpos hops).2.1

/-- Witness for C8 at the concrete example session. -/
theorem c8_spend_monotonic_witness :
    exampleState.cumulativeSpendMicrousdc ≤
      (runOps exampleState [SessionOp.commit "aceid_k1",
        SessionOp.release "aceid_k1"]).cumulativeSpendMicrousdc := by
  have hpos : PendingPos exampleState := by
    intro p hp
    simp only [exampleState, List.mem_singleton] at hp
    rw [hp]
    decide
  exact c8_spend_monotonic exampleState
    [SessionOp.commit "aceid_k1", SessionOp.release "aceid_k1"] hpos (by decide)

/-- Claim C5 (confirmed): every failing check of `signForChallenge`
throws before any wallet signature is produced — the result is
independent of the signer — and leaves the session state unchanged with
nothing persisted; and, once the earlier checks pass and the key is not
already pending, the `SpendLimitExceeded` error occurs exactly when the
challenge amount exceeds `spendLimit - cumulative - pending`. -/
theorem c5_sign_atomic (s : SessionState) (c : PaymentChallenge)
    (r : SignRequestContext) (now : Int) (f : String → String) :
    (∀ e : SignError, (signForChallenge s c r now f).outcome = .error e →
      (signForChallenge s c r now f).state = s ∧
      (signForChallenge s c r now f).persisted = false ∧
      ∀ g : String → String,
        signForChallenge s c r now g = signForChallenge s c r now f) ∧
    (now < s.expiresAt → c.version = ACE_PAYMENT_VERSION →
      c.currency = "USDC" → now < c.expiresAt →
      c.method = jsToUpperCase r.method → c.resource = deriveResource r.url →
      lookupAttempt s.pendingAttempts (signKeyOf s c r) = none →
      ((signForChallenge s c r now f).outcome = .error .spendLimitExceeded ↔
        (getSnapshot s).availableSpendMicrousdc < c.amountMicrousdc)) := by
  constructor
  · intro e he
    have hframe := sign_error_frame s c r now f e he
    exact ⟨hframe.1, hframe.2,
      fun g => sign_indep_of_not_persisted s c r now f g hframe.2⟩
  · intro h1 h2 h3 h4 h5 h6 hl
    rw [signForChallenge_eq_alt]
    rw [if_neg (by omega), if_neg (by simp [h2]), if_neg (by simp [h3]),
      if_neg (by omega), if_neg (by simp [h5]), if_neg (by simp [h6])]
    simp only [hl]
    split_ifs with hlt
    · exact iff_of_true rfl hlt
    · constructor
      · intro hout
        exact absurd hout (by simp)
      · intro hlt2
        exact absurd hlt2 hlt

/-- Session, challenge, request, and signer of scenario S5 (0.2 USDC
limit, 0.25 USDC challenge). -/
def exC5State : SessionState := createSessionState "sess-5" "0xAbC" 200000 0 86400

/-- Challenge of scenario S5. -/
def exC5Challenge : PaymentChallenge :=
  { version := "ace-x402-v1", challengeId := "ch-5", resource := "/compute",
    method := "GET", amountMicrousdc := 250000, currency := "USDC",
    issuedAt := 0, expiresAt := 60000, nonce := "n5", mac := none }

/-- Request of scenario S5. -/
def exC5Request : SignRequestContext :=
  { method := "GET", url := { pathname := "/compute", search := "" }, body := none }

/-- A wallet signer stub for witnesses. -/
def exSigner : String → String := fun _ => "0xsig"

/-- Witness for C5: scenario S5 produces `SpendLimitExceeded`, leaves
the state unchanged, and persists nothing. -/
theorem c5_sign_atomic_witness :
    (signForChallenge exC5State exC5Challenge exC5Request 0 exSigner).outcome =
      .error .spendLimitExceeded ∧
    (signForChallenge exC5State exC5Challenge exC5Request 0 exSigner).state =
      exC5State ∧
    (signForChallenge exC5State exC5Challenge exC5Request 0 exSigner).persisted =
      false := by
  have hiff := (c5_sign_atomic exC5State exC5Challenge exC5Request 0 exSigner).2
    (by decide) rfl rfl (by decide) (by decide) (by decide) rfl
  have hout := hiff.mpr (by decide)
  have hframe := (c5_sign_atomic exC5State exC5Challenge exC5Request 0 exSigner).1
    .spendLimitExceeded hout
  exact ⟨hout, hframe.1, hframe.2.1⟩

/-- Claim C6 (confirmed): when the interceptor has signed a payment and
retried, a transport throw on the retry triggers exactly one
`releasePayment` of the signed idempotency key and re-throws, and a
non-2xx retry response triggers exactly one `releasePayment` and is
returned; in both cases the cumulative spend is unchanged and no
pending entry remains under that key. -/
theorem c6_interceptor_release (s : SessionState) (request : InterceptRequest)
    (firstResponse : InterceptResponse)
    (retryResult : Except String InterceptResponse) (now : Int)
    (f : String → String) (challenge : PaymentChallenge)
    (signed : SignedPayment)
    (h402 : firstResponse.status = 402)
    (hhdr : hasPaymentHeader request.headers = false)
    (hchal : (extractChallenge firstResponse).challenge = .ok (some challenge))
    (hsign : (signForChallenge s challenge
      { method := jsToUpperCase request.method, url := request.url,
        body := request.body } now f).outcome = .ok signed) :
    (∀ e : String, retryResult = .error e →
      (x402Fetch s request firstResponse retryResult now f).outcome =
        .error (.transport e) ∧
      (x402Fetch s request firstResponse retryResult now f).released =
        [signed.idempotencyKey] ∧
      (x402Fetch s request firstResponse retryResult now f).committed = [] ∧
      (x402Fetch s request firstResponse retryResult now
        f).state.cumulativeSpendMicrousdc = s.cumulativeSpendMicrousdc ∧
      lookupAttempt (x402Fetch s request firstResponse retryResult now
        f).state.pendingAttempts signed.idempotencyKey = none) ∧
    (∀ resp : InterceptResponse, retryResult = .ok resp →
      (resp.status < 200 ∨ 299 < resp.status) →
      (x402Fetch s request firstResponse retryResult now f).outcome = .ok resp ∧
      (x402Fetch s request firstResponse retryResult now f).released =
        [signed.idempotencyKey] ∧
      (x402Fetch s request firstResponse retryResult now f).committed = [] ∧
      (x402Fetch s request firstResponse retryResult now
        f).state.cumulativeSpendMicrousdc = s.cumulativeSpendMicrousdc ∧
      lookupAttempt (x402Fetch s request firstResponse retryResult now
        f).state.pendingAttempts signed.idempotencyKey = none) := by
  constructor
  · intro e hre
    subst hre
    have hx : x402Fetch s request firstResponse (.error e) now f =
        { outcome := .error (.transport e),
          state := (releasePayment (signForChallenge s challenge
            { method := jsToUpperCase request.method, url := request.url,
              body := request.body } now f).state signed.idempotencyKey).1,
          released := [signed.idempotencyKey], committed := [] } := by
      simp [x402Fetch, h402, hhdr, hchal, hsign]
    rw [hx]
    refine ⟨rfl, rfl, rfl, ?_, ?_⟩
    · rw [releasePayment_cum]
      exact sign_cum_unchanged s challenge _ now f
    · exact releasePayment_lookup_self _ _
  · intro resp hre hstat
    subst hre
    have hok : ¬ (200 ≤ resp.status ∧ resp.status ≤ 299) := by omega
    have hx : x402Fetch s request firstResponse (.ok resp) now f =
        { outcome := .ok resp,
          state := (releasePayment (signForChallenge s challenge
            { method := jsToUpperCase request.method, url := request.url,
              body := request.body } now f).state signed.idempotencyKey).1,
          released := [signed.idempotencyKey], committed := [] } := by
      simp [x402Fetch, h402, hhdr, hchal, hsign, hok]
    rw [hx]
    refine ⟨rfl, rfl, rfl, ?_, ?_⟩
    · rw [releasePayment_cum]
      exact sign_cum_unchanged s challenge _ now f
    · exact releasePayment_lookup_self _ _

/-- Session for the C6 witness: 1 USDC limit, fresh. -/
def exC6State : SessionState := createSessionState "sess-6" "0xAbC" 1000000 0 86400

/-- Challenge for the C6 witness. -/
def exC6Challenge : PaymentChallenge :=
  { version := "ace-x402-v1", challengeId := "ch-6", resource := "/compute",
    method := "GET", amountMicrousdc := 250000, currency := "USDC",
    issuedAt := 0, expiresAt := 60000, nonce := "n6", mac := none }

/-- Request for the C6 witness. -/
def exC6Request : InterceptRequest :=
  { method := "GET", url := { pathname := "/compute", search := "" },
    body := none, headers := [] }

/-- Signing context the interceptor passes on, for the C6 witness. -/
def exC6Ctx : SignRequestContext :=
  { method := jsToUpperCase exC6Request.method, url := exC6Request.url,
    body := exC6Request.body }

/-- Accepts entry of the C6 witness envelope. -/
def exC6Accept : X402Accept :=
  { scheme := "exact", network := "eip155:84532", amount := "250000",
    asset := "USDC", payTo := "ace:phase0",
    extraChallenge := some exC6Challenge }

/-- Envelope of the C6 witness 402 response. -/
def exC6Required : X402PaymentRequired :=
  { x402Version := 2, error := "payment_required", accepts := [exC6Accept] }

/-- First (402) response for the C6 witness, challenge in the header. -/
def exC6First : InterceptResponse :=
  { status := 402, paymentRequired := some (.ok exC6Required),
    contentTypeJson := false, bodyChallenge := .ok none,
    echoedPayment := none }

/-- The payment the C6 witness signs. -/
def exC6Signed : SignedPayment :=
  freshSignedPayment exC6State exC6Challenge exC6Ctx 0 exSigner

/-- Witness for C6: a transport throw on the retry releases the signed
key exactly once, re-throws, leaves cumulative spend at zero and no
pending entry. -/
theorem c6_interceptor_release_witness :
    (x402Fetch exC6State exC6Request exC6First (.error "boom") 0
      exSigner).outcome = .error (.transport "boom") ∧
    (x402Fetch exC6State exC6Request exC6First (.error "boom") 0
      exSigner).released = [exC6Signed.idempotencyKey] ∧
    (x402Fetch exC6State exC6Request exC6First (.error "boom") 0
      exSigner).committed = [] ∧
    (x402Fetch exC6State exC6Request exC6First (.error "boom") 0
      exSigner).state.cumulativeSpendMicrousdc =
      exC6State.cumulativeSpendMicrousdc ∧
    lookupAttempt (x402Fetch exC6State exC6Request exC6First (.error "boom") 0
      exSigner).state.pendingAttempts exC6Signed.idempotencyKey = none := by
  have hl : lookupAttempt exC6State.pendingAttempts
      (signKeyOf exC6State exC6Challenge exC6Ctx) = none := rfl
  have hsign : (signForChallenge exC6State exC6Challenge exC6Ctx 0
      exSigner).outcome = .ok exC6Signed := by
    rw [signForChallenge_eq_alt]
    rw [if_neg (by decide), if_neg (by decide), if_neg (by decide),
      if_neg (by decide), if_neg (by decide), if_neg (by decide)]
    simp only [hl]
    rw [if_neg (by decide)]
    rfl
  have h := (c6_interceptor_release exC6State exC6Request exC6First
    (.error "boom") 0 exSigner exC6Challenge exC6Signed (by rfl) (by rfl)
    (by rfl) hsign).1 "boom" rfl
  exact h

/-- A challenge whose version does not match the protocol, for C9. -/
def exC9OtherChallenge : PaymentChallenge :=
  { version := "x402-other", challengeId := "ch-9a", resource := "/compute",
    method := "GET", amountMicrousdc := 250000, currency := "USDC",
    issuedAt := 0, expiresAt := 60000, nonce := "n9a", mac := none }

/-- A version-matched challenge carried in the response body, for C9. -/
def exC9BodyChallenge : PaymentChallenge :=
  { version := "ace-x402-v1", challengeId := "ch-9b", resource := "/compute",
    method := "GET", amountMicrousdc := 250000, currency := "USDC",
    issuedAt := 0, expiresAt := 60000, nonce := "n9b", mac := none }

/-- Accepts entry holding only the version-mismatched challenge. -/
def exC9Accept : X402Accept :=
  { scheme := "exact", network := "eip155:84532", amount := "250000",
    asset := "USDC", payTo := "ace:phase0",
    extraChallenge := some exC9OtherChallenge }

/-- Envelope that decodes fine but offers no version-matched
challenge. -/
def exC9Required : X402PaymentRequired :=
  { x402Version := 2, error := "payment_required", accepts := [exC9Accept] }

/-- A 402 response whose header decodes successfully without a
version-matched challenge, while the JSON body carries one. -/
def exC9First : InterceptResponse :=
  { status := 402, paymentRequired := some (.ok exC9Required),
    contentTypeJson := true, bodyChallenge := .ok (some exC9BodyChallenge),
    echoedPayment := none }

/-- Counterexample to Claim C9: the `PAYMENT-REQUIRED` header is present
and decodes successfully (no decoding failure), its accepts hold no
version-matched challenge — yet `extractChallenge` reads the response
body and finds the body challenge, so the 402 is not returned
unchanged. -/
theorem c9_counterexample :
    exC9First.paymentRequired = some (.ok exC9Required) ∧
    headerChallengeOf exC9First = none ∧
    (extractChallenge exC9First).bodyRead = true ∧
    (extractChallenge exC9First).challenge = .ok (some exC9BodyChallenge) :=
  ⟨rfl, rfl, rfl, rfl⟩

/-- Claim C9 (amended): when a 402 carries a `PAYMENT-REQUIRED` header,
the interceptor reads the body whenever the header path yields no
challenge — on a decoding failure or when no accepts entry is
version-matched — and the content type is JSON; if additionally the
body yields no version-matched challenge, no challenge is found and the
402 is returned unchanged without signing. -/
theorem c9_amended_extract (response : InterceptResponse) (s : SessionState)
    (request : InterceptRequest)
    (retryResult : Except String InterceptResponse) (now : Int)
    (f : String → String) (hdrVal : Except Unit X402PaymentRequired)
    (hpresent : response.paymentRequired = some hdrVal) :
    ((extractChallenge response).bodyRead = true ↔
      (headerChallengeOf response = none ∧ response.contentTypeJson = true)) ∧
    (headerChallengeOf response = none →
      (response.contentTypeJson = false ∨
        response.bodyChallenge = .ok none ∨
        (∃ c : PaymentChallenge, response.bodyChallenge = .ok (some c) ∧
          c.version ≠ ACE_PAYMENT_VERSION)) →
      (extractChallenge response).challenge = .ok none) ∧
    (response.status = 402 → hasPaymentHeader request.headers = false →
      (extractChallenge response).challenge = .ok none →
      x402Fetch s request response retryResult now f =
        { outcome := .ok response, state := s,
          released := [], committed := [] }) := by
  refine ⟨?_, ?_, ?_⟩
  · rcases hc : headerChallengeOf response with _ | c
    · cases hct : response.contentTypeJson
      · simp [extractChallenge, hc, hct]
      · rcases hb : response.bodyChallenge with e | co
        · simp [extractChallenge, hc, hct, hb]
        · rcases co with _ | c2
          · simp [extractChallenge, hc, hct, hb]
          · by_cases hv : c2.version = ACE_PAYMENT_VERSION <;>
              simp [extractChallenge, hc, hct, hb, hv]
    · simp [extractChallenge, hc]
  · intro hc hcase
    rcases hcase with hct | hb | ⟨c2, hb, hv⟩
    · simp [extractChallenge, hc, hct]
    · cases hct : response.contentTypeJson <;>
        simp [extractChallenge, hc, hct, hb]
    · cases hct : response.contentTypeJson <;>
        simp [extractChallenge, hc, hct, hb, hv]
  · intro h402 hhdr hnone
    simp [x402Fetch, h402, hhdr, hnone]

/-- Response for the C9 amended witness: header decodes, no
version-matched challenge anywhere, non-JSON body. -/
def exC9Plain : InterceptResponse :=
  { status := 402, paymentRequired := some (.ok exC9Required),
    contentTypeJson := false, bodyChallenge := .ok none,
    echoedPayment := none }

/-- Witness for the amended C9: with no version-matched challenge in
header or body, no challenge is found and the interceptor returns the
402 unchanged. -/
theorem c9_amended_extract_witness :
    (extractChallenge exC9Plain).challenge = .ok none ∧
    x402Fetch exC6State exC6Request exC9Plain (.error "boom") 0 exSigner =
      { outcome := .ok exC9Plain, state := exC6State,
        released := [], committed := [] } := by
  have h := c9_amended_extract exC9Plain exC6State exC6Request (.error "boom")
    0 exSigner (.ok exC9Required) rfl
  have h2 := h.2.1 rfl (Or.inl rfl)
  exact ⟨h2, h.2.2 rfl rfl h2⟩

/-- Session for C3: fresh, 1 USDC limit, 24h TTL. -/
def exC3State : SessionState := createSessionState "sess-3" "0xAbC" 1000000 0 86400

/-- Challenge for C3, expiring at t = 10000 ms. -/
def exC3Challenge : PaymentChallenge :=
  { version := "ace-x402-v1", challengeId := "ch-3", resource := "/compute",
    method := "GET", amountMicrousdc := 250000, currency := "USDC",
    issuedAt := 0, expiresAt := 10000, nonce := "n3", mac := none }

/-- Request for C3. -/
def exC3Request : SignRequestContext :=
  { method := "GET", url := { pathname := "/compute", search := "" },
    body := none }

/-- Session state after the first, successful `signForChallenge` at
t = 0. -/
def exC3AfterFirst : SessionState :=
  (signForChallenge exC3State exC3Challenge exC3Request 0 exSigner).state

/-- Counterexample to Claim C3: after a successful sign at t = 0, the
attempt is cached under the derived key and the session is unexpired at
t = 50000 (it expires at t = 86400000); yet a second
`signForChallenge` with the same challenge and request at t = 50000
throws `Challenge expired` (the challenge expired at t = 10000) instead
of returning the cached `SignedPayment`. -/
theorem c3_counterexample :
    lookupAttempt exC3AfterFirst.pendingAttempts
      (signKeyOf exC3State exC3Challenge exC3Request) =
      some (freshSignedPayment exC3State exC3Challenge exC3Request 0 exSigner) ∧
    exC3AfterFirst.expiresAt = 86400000 ∧
    (signForChallenge exC3AfterFirst exC3Challenge exC3Request 50000
      exSigner).outcome = .error .challengeExpired := by
  have hfull : signForChallenge exC3State exC3Challenge exC3Request 0 exSigner =
      { outcome := .ok (freshSignedPayment exC3State exC3Challenge exC3Request
          0 exSigner),
        state := { exC3State with pendingAttempts :=
          exC3State.pendingAttempts ++
            [(signKeyOf exC3State exC3Challenge exC3Request,
              freshSignedPayment exC3State exC3Challenge exC3Request 0 exSigner)] },
        persisted := true } := by
    rw [signForChallenge_eq_alt]
    rw [if_neg (by decide), if_neg (by decide), if_neg (by decide),
      if_neg (by decide), if_neg (by decide), if_neg (by decide)]
    simp only [show lookupAttempt exC3State.pendingAttempts
      (signKeyOf exC3State exC3Challenge exC3Request) = none from rfl]
    rw [if_neg (by decide)]
  refine ⟨?_, by decide, ?_⟩
  · simp only [exC3AfterFirst, hfull]
    simp [lookupAttempt]
  · rw [signForChallenge_eq_alt]
    rw [if_neg (by decide), if_neg (by decide), if_neg (by decide),
      if_pos (by decide)]

/-- Claim C3 (amended): a second `signForChallenge` with the same
challenge and request context on an unexpired session — provided the
challenge is also still unexpired at the second call, which the ordered
checks run before the idempotent short-circuit — returns the cached
`SignedPayment` verbatim with no state mutation, no persist, and no
wallet call (the signer of the second call is arbitrary), and
`pendingAttempts` holds exactly one entry for the derived key. -/
theorem c3_amended_idempotent (s : SessionState) (c : PaymentChallenge)
    (r : SignRequestContext) (now1 now2 : Int) (f g : String → String)
    (p : SignedPayment)
    (hnodup : (s.pendingAttempts.map Prod.fst).Nodup)
    (hfirst : (signForChallenge s c r now1 f).outcome = .ok p)
    (hsession : now2 < (signForChallenge s c r now1 f).state.expiresAt)
    (hchal : now2 < c.expiresAt) :
    signForChallenge (signForChallenge s c r now1 f).state c r now2 g =
      { outcome := .ok p, state := (signForChallenge s c r now1 f).state,
        persisted := false } ∧
    countKey (signForChallenge s c r now1 f).state.pendingAttempts
      (signKeyOf s c r) = 1 := by
  obtain ⟨h2, h3, h5, h6, hnow1, hc1, hsid, hpayer, hexp, hlim, hlook, hpend⟩ :=
    sign_ok_results s c r now1 f p hfirst
  set s1 := (signForChallenge s c r now1 f).state with hs1
  have hkey : signKeyOf s1 c r = signKeyOf s c r := by
    unfold signKeyOf
    rw [hsid, hpayer]
  constructor
  · rw [signForChallenge_eq_alt]
    rw [if_neg (by omega), if_neg (by simp [h2]), if_neg (by simp [h3]),
      if_neg (by omega), if_neg (by simp [h5]), if_neg (by simp [h6])]
    rw [hkey]
    simp only [hlook]
  · rcases hpend with hsame | ⟨happ, hnone⟩
    · rw [hsame]
      rw [hsame] at hlook
      exact countKey_eq_one_of_nodup_lookup (signKeyOf s c r) p
        s.pendingAttempts hnodup hlook
    · rw [happ, countKey_append, countKey_eq_zero_of_lookup_none _ _ hnone]
      simp [countKey]

/-- Witness for the amended C3: re-signing at t = 5000 (challenge and
session both unexpired) returns the cached payment unchanged, and the
pending map holds exactly one entry for the key. -/
theorem c3_amended_idempotent_witness :
    signForChallenge exC3AfterFirst exC3Challenge exC3Request 5000 exSigner =
      { outcome := .ok (freshSignedPayment exC3State exC3Challenge exC3Request
          0 exSigner),
        state := exC3AfterFirst, persisted := false } ∧
    countKey exC3AfterFirst.pendingAttempts
      (signKeyOf exC3State exC3Challenge exC3Request) = 1 := by
  have hfirst : (signForChallenge exC3State exC3Challenge exC3Request 0
      exSigner).outcome = .ok (freshSignedPayment exC3State exC3Challenge
      exC3Request 0 exSigner) := by
    rw [signForChallenge_eq_alt]
    rw [if_neg (by decide), if_neg (by decide), if_neg (by decide),
      if_neg (by decide), if_neg (by decide), if_neg (by decide)]
    simp only [show lookupAttempt exC3State.pendingAttempts
      (signKeyOf exC3State exC3Challenge exC3Request) = none from rfl]
    rw [if_neg (by decide)]
  exact c3_amended_idempotent exC3State exC3Challenge exC3Request 0 5000
    exSigner exSigner
    (freshSignedPayment exC3State exC3Challenge exC3Request 0 exSigner)
    (by decide) hfirst (by decide) (by decide)

/-- Object whose keys order differently under `localeCompare` and under
UTF-16 code-unit order. -/
def exC1Value : Json := .obj [("B", .num 1), ("a", .num 2)]

/-- Counterexample to Claim C1: `canonicalJson` sorts keys with
`localeCompare`, which places `"a"` before `"B"` (root-locale
collation), while UTF-16 code-unit order places `"B"` (code unit 66)
before `"a"` (code unit 97); on `\x7bB: 1, a: 2\x7d` the two
serializations differ. -/
theorem c1_counterexample :
    canonicalJson exC1Value = "\x7b\"a\":2,\"B\":1\x7d" ∧
    canonicalJsonSpecOrder exC1Value = "\x7b\"B\":1,\"a\":2\x7d" ∧
    canonicalJson exC1Value ≠ canonicalJsonSpecOrder exC1Value := by
  have h1 : canonicalJson exC1Value = "\x7b\"a\":2,\"B\":1\x7d" := by
    simp [exC1Value, canonicalJson, sortDeep, sortDeepWith_obj, sortDeepWith,
      renderJson_obj, renderJson, sortEntries, insertEntry, jsLocaleCompare,
      primaryKey, tertiaryKey, asciiLowerNat, lexCmp, natCmp, renderString,
      escapeJsonChar, String.intercalate]
    decide
  have h2 : canonicalJsonSpecOrder exC1Value = "\x7b\"B\":1,\"a\":2\x7d" := by
    simp [exC1Value, canonicalJsonSpecOrder, sortDeepWith_obj, sortDeepWith,
      renderJson_obj, renderJson, sortEntries, insertEntry, codeUnitCompare,
      codeUnits, lexCmp, natCmp, renderString, escapeJsonChar,
      String.intercalate]
    decide
  refine ⟨h1, h2, ?_⟩
  rw [h1, h2]
  decide

/-- Claim C1 (amended): `canonicalJson` recursively sorts object keys by
the host `localeCompare` collation (locale-sensitive; on ASCII,
case-insensitive primary order with lowercase first — not UTF-16
code-unit order), preserves array order, and emits no insignificant
whitespace; consequently two objects with the same entries in different
insertion orders serialize identically whenever the collation strictly
separates their distinct keys. -/
theorem c1_amended_canonical :
    (∀ v : Json, keysSortedDeep jsLocaleCompare (sortDeep v) = true) ∧
    (∀ l₁ l₂ : List (String × Json), l₁.Perm l₂ →
      (l₁.map Prod.fst).Nodup →
      (∀ k ∈ l₁.map Prod.fst, ∀ k2 ∈ l₁.map Prod.fst,
        jsLocaleCompare k k2 = .eq → k = k2) →
      canonicalJson (.obj l₁) = canonicalJson (.obj l₂)) :=
  ⟨keysSortedDeep_sortDeep, fun l₁ l₂ hperm hnodup hsep =>
    canonicalJson_obj_perm l₁ l₂ hperm hnodup hsep⟩

/-- Witness for the amended C1: a nested value is recursively
key-sorted, and a two-key object serializes identically from both
insertion orders. -/
theorem c1_amended_canonical_witness :
    keysSortedDeep jsLocaleCompare
      (sortDeep (.obj [("b", .num 1), ("a", .arr [.num 3])])) = true ∧
    canonicalJson (.obj [("a", .num 1), ("B", .num 2)]) =
      canonicalJson (.obj [("B", .num 2), ("a", .num 1)]) := by
  constructor
  · exact c1_amended_canonical.1 (.obj [("b", .num 1), ("a", .arr [.num 3])])
  · exact c1_amended_canonical.2 [("a", .num 1), ("B", .num 2)]
      [("B", .num 2), ("a", .num 1)] (List.Perm.swap _ _ _) (by decide)
      (by decide)
